import Mathlib

/-!
# Verification of the dungeon-generation core of rust-bevy-rogue

Shallow embedding of `src/create_dungeon.rs` and the grid / coordinate part of
`src/main.rs`.  Rust `usize` values are modelled as `Nat`, `i32` as `Int`
(the generator only casts grid coordinates, which stay far below `2^31` for any
allocatable grid, so machine wrap-around of the casts is not modelled; the
`i32 -> usize` cast of a negative coordinate, which in Rust produces a huge
index and therefore an out-of-bounds panic, is modelled as a panic directly).
`f32` values are modelled as exact rationals (every arithmetic operation the
code performs on them is exact for the coordinate magnitudes of an allocatable
grid), and the saturating `f32 as usize` cast as `Int.toNat ∘ Int.floor`.
Panics (out-of-bounds indexing, `unwrap` on `None`, empty `gen_range` ranges,
`usize` underflow) are modelled by `Option`, with `none` meaning the operation
panics.  The ambient `rand::thread_rng()` is modelled as an explicit stream of
naturals threaded through the computation; each bounded draw maps the next
stream element into the requested range, so every realisable sequence of draws
corresponds to some stream.
-/

/-- `TileType` from `main.rs`. -/
inductive TileType where
  | Empty
  | Wall
  | Floor
  | StaircaseDown
  | Player
  | Potion
  | Lightning
  | Orc
  | Troll
deriving DecidableEq, Repr

/-- `RenderHint` from `main.rs`. -/
inductive RenderHint where
  | Empty
  | RoomFloor
deriving DecidableEq, Repr

/-- `Tile` from `main.rs`. -/
structure Tile where
  tile_type : TileType
  render_hint : RenderHint
deriving DecidableEq, Repr

/-- `Tile::new` from `main.rs`. -/
def Tile.new (tt : TileType) : Tile := ⟨tt, RenderHint.Empty⟩

/-- `ItemType` from `main.rs`. -/
inductive ItemType where
  | HealPotion
  | Lightning
deriving DecidableEq, Repr

/-- `MonsterType` from `main.rs`. -/
inductive MonsterType where
  | Orc
  | Troll
deriving DecidableEq, Repr

/-- `ItemInMap` from `main.rs`. -/
structure ItemInMap where
  position : Nat × Nat
  item_type : ItemType
deriving DecidableEq, Repr

/-- `MonsterInMap` from `main.rs`. -/
structure MonsterInMap where
  position : Nat × Nat
  monster_type : MonsterType
deriving DecidableEq, Repr

/-- `TileRow` from `main.rs`. -/
structure TileRow where
  character : Char
  tile_type : TileType
  item_type : Option ItemType
  monster_type : Option MonsterType
deriving DecidableEq, Repr

/-- The row table built by `TileMapping::new` in `main.rs`. -/
def TileMapping.new : List TileRow :=
  [ ⟨'#', TileType.Wall, none, none⟩,
    ⟨'.', TileType.Floor, none, none⟩,
    ⟨'>', TileType.StaircaseDown, none, none⟩,
    ⟨'@', TileType.Player, none, none⟩,
    ⟨'!', TileType.Potion, some ItemType.HealPotion, none⟩,
    ⟨'?', TileType.Lightning, some ItemType.Lightning, none⟩,
    ⟨'o', TileType.Orc, none, some MonsterType.Orc⟩,
    ⟨'T', TileType.Troll, none, some MonsterType.Troll⟩,
    ⟨' ', TileType.Empty, none, none⟩ ]

/-- `TileMapping::get_tile_type` from `main.rs`; the source `unwrap`s the
`find`, so an unknown character is a panic (`none`). -/
def TileMapping.get_tile_type (rows : List TileRow) (c : Char) : Option TileType :=
  (rows.find? (fun row => row.character = c)).map (·.tile_type)

/-- `Grid` from `main.rs`: `inner: Vec<Vec<Tile>>`.  All grids the program
builds are rectangular (`nRows` rows of `nCols` tiles each); `cells row col`
is `inner[row][col]`. -/
structure Grid where
  nRows : Nat
  nCols : Nat
  cells : Nat → Nat → Tile

/-- `Grid::new(width, height, tile_type)`:
`vec![vec![Tile::new(tile_type); width]; height]`. -/
def Grid.new (width height : Nat) (tt : TileType) : Grid :=
  ⟨height, width, fun _ _ => Tile.new tt⟩

/-- `Grid::width`: `inner.first().map_or(0, |row| row.len())`. -/
def Grid.widthFn (g : Grid) : Nat := if g.nRows = 0 then 0 else g.nCols

/-- `Grid::height`: `inner.len()`. -/
def Grid.heightFn (g : Grid) : Nat := g.nRows

/-- The `Index<(usize, usize)>` impl: `&self.inner[row][col]` for argument
`(col, row)`; out of bounds is a panic (`none`). -/
def Grid.index (g : Grid) (p : Nat × Nat) : Option Tile :=
  if p.2 < g.nRows ∧ p.1 < g.nCols then some (g.cells p.2 p.1) else none

/-- The `IndexMut<(usize, usize)>` impl used as `grid[(col,row)] = tile`;
out of bounds is a panic (`none`). -/
def Grid.setIndex (g : Grid) (p : Nat × Nat) (t : Tile) : Option Grid :=
  if p.2 < g.nRows ∧ p.1 < g.nCols then
    some { g with cells := fun r c => if r = p.2 ∧ c = p.1 then t else g.cells r c }
  else none

/-- `grid[(col,row)].tile_type = tt`: read-modify-write of the `tile_type`
field through `IndexMut`. -/
def Grid.setTileType (g : Grid) (p : Nat × Nat) (tt : TileType) : Option Grid :=
  (g.index p).bind fun t => g.setIndex p { t with tile_type := tt }

/-- `Room` from `create_dungeon.rs`. -/
structure Room where
  x1 : Nat
  y1 : Nat
  x2 : Nat
  y2 : Nat
  center : Nat × Nat
deriving DecidableEq, Repr

/-- `Room::new(x, y, width, height)` from `create_dungeon.rs`. -/
def Room.new (x y width height : Nat) : Room :=
  ⟨x, y, x + width, y + height, ((x + (x + width)) / 2, (y + (y + height)) / 2)⟩

/-- `Room::intersects` from `create_dungeon.rs`:
`!(self.x2 <= other.x1 || other.x2 <= self.x1 || self.y2 <= other.y1 || other.y2 <= self.y1)`. -/
def Room.intersects (s o : Room) : Bool :=
  !(decide (s.x2 ≤ o.x1) || decide (o.x2 ≤ s.x1) || decide (s.y2 ≤ o.y1) || decide (o.y2 ≤ s.y1))

/-- `GameMap` from `main.rs` (the fields the core reads and writes). -/
structure GameMap where
  grid : Grid
  tile_mapping : List TileRow
  player_position : Nat × Nat
  monsters : List MonsterInMap
  items : List ItemInMap
  center : Nat × Nat
  width : Nat
  height : Nat

/-! ## Text-map parsing (`StringMapGenerator::generate`)

Rust `&str` values are embedded as `List Char`. -/

/-- Whitespace as recognised by `str::trim` (the characters that occur in
practice; the maps use only spaces and newlines). -/
def isRustWhitespace (c : Char) : Bool :=
  c = ' ' || c = '\n' || c = '\t' || c = '\r'

/-- `str::trim`: strip leading and trailing whitespace. -/
def trimChars (s : List Char) : List Char :=
  ((s.dropWhile isRustWhitespace).reverse.dropWhile isRustWhitespace).reverse

/-- `str::split('\n').collect::<Vec<_>>()`: the pieces between newline
separators, including empty pieces; on the empty string this is `[[]]`. -/
def splitNewline : List Char → List (List Char)
  | [] => [[]]
  | c :: cs =>
    if c = '\n' then [] :: splitNewline cs
    else
      match splitNewline cs with
      | [] => [[c]]
      | l :: ls => (c :: l) :: ls

/-- The per-line `.chars().enumerate().map(...)` pass of
`StringMapGenerator::generate`: build the row of tiles, updating
`player_position` whenever a `Player` tile is produced; an unknown glyph is a
panic. -/
def scanLine (tm : List TileRow) : List Char → Nat → Nat → (Nat × Nat) →
    Option (List Tile × (Nat × Nat))
  | [], _, _, pp => some ([], pp)
  | ch :: rest, x, y, pp =>
    match TileMapping.get_tile_type tm ch with
    | none => none
    | some tt =>
      let tile := Tile.new tt
      let pp' := if tile.tile_type = TileType.Player then (x, y) else pp
      match scanLine tm rest (x + 1) y pp' with
      | none => none
      | some (tiles, ppf) => some (tile :: tiles, ppf)

/-- The `for (x, tile) in row.iter().enumerate() { grid[(x,y)] = tile }` loop. -/
def writeRow (g : Grid) : List Tile → Nat → Nat → Option Grid
  | [], _, _ => some g
  | t :: ts, x, y => (g.setIndex (x, y) t).bind fun g' => writeRow g' ts (x + 1) y

/-- The `for (y, line) in lines.iter().enumerate()` loop of
`StringMapGenerator::generate`. -/
def processLines (tm : List TileRow) : List (List Char) → Nat → Grid → (Nat × Nat) →
    Option (Grid × (Nat × Nat))
  | [], _, g, pp => some (g, pp)
  | line :: rest, y, g, pp =>
    (scanLine tm line 0 y pp).bind fun tp =>
    (writeRow g tp.1 0 y).bind fun g' =>
    processLines tm rest (y + 1) g' tp.2

/-- `StringMapGenerator::generate` from `create_dungeon.rs`.  The outer
`Option` is panic; the inner `Except` is the returned `Result`. -/
def StringMapGenerator.generate (map_string : List Char) : Option (Except String GameMap) :=
  let tm := TileMapping.new
  let lines := splitNewline (trimChars map_string)
  if lines.isEmpty then some (Except.error "Empty map")
  else
    let height := lines.length
    let width := (lines.headD []).length
    match processLines tm lines 0 (Grid.new height width TileType.Empty) (0, 0) with
    | none => none
    | some (grid, player_position) =>
      match grid.setIndex player_position (Tile.new TileType.Floor) with
      | none => none
      | some grid2 =>
        some (Except.ok
          { grid := grid2, tile_mapping := tm, player_position := player_position,
            monsters := [], items := [], center := (width / 2, height / 2),
            width := width, height := height })

/-! ## First theorems: C1 (intersection edge case) and C2 (empty input) -/

/-- Counterexample for claim C1: the rooms `Room::new(0,0,5,5)` and
`Room::new(5,0,5,5)` share exactly the edge `x = 5` (`A.x2 == B.x1`) with
fully overlapping `y` ranges, yet `Room::intersects` reports `false`. -/
theorem room_touching_edge_not_intersecting :
    Room.intersects (Room.new 0 0 5 5) (Room.new 5 0 5 5) = false := by decide

/-- C1 (amended): two rooms with `A.x2 == B.x1` are always reported as
non-intersecting by `Room::intersects` (touching edges do not count), so such
a candidate placement is not rejected on account of this pair. -/
theorem room_intersects_touching_edge (A B : Room) (h : A.x2 = B.x1) :
    Room.intersects A B = false := by
  simp [Room.intersects, h]

theorem room_intersects_touching_edge_witness :
    (Room.new 0 0 5 5).x2 = (Room.new 5 0 5 5).x1 ∧
      Room.intersects (Room.new 0 0 5 5) (Room.new 5 0 5 5) = false :=
  ⟨by decide, room_intersects_touching_edge _ _ (by decide)⟩

/-- `splitNewline` never returns the empty list, exactly as Rust's
`split('\n')` never yields an empty iterator. -/
theorem splitNewline_ne_nil (s : List Char) : splitNewline s ≠ [] := by
  induction s with
  | nil => simp [splitNewline]
  | cons c cs ih =>
    simp only [splitNewline]
    split
    · simp
    · cases h : splitNewline cs with
      | nil => simp
      | cons l ls => simp

/-- C2: the `EmptyInput` branch of `StringMapGenerator::generate` is
unreachable — `split('\n')` always yields at least one line, so the generator
never returns the `Empty map` error; on the empty string it instead panics
(out-of-bounds write of the player tile into a zero-row grid).  Every call
either panics or returns `Ok`. -/
theorem stringMapGenerator_error_unreachable :
    StringMapGenerator.generate [] = none ∧
      ∀ s, StringMapGenerator.generate s = none ∨
        ∃ m, StringMapGenerator.generate s = some (Except.ok m) := by
  constructor
  · rfl
  · intro s
    unfold StringMapGenerator.generate
    have hne : splitNewline (trimChars s) ≠ [] := splitNewline_ne_nil _
    simp only [List.isEmpty_iff, if_neg hne]
    cases hp : processLines TileMapping.new (splitNewline (trimChars s)) 0
        (Grid.new (splitNewline (trimChars s)).length
          ((splitNewline (trimChars s)).headD []).length TileType.Empty) (0, 0) with
    | none => left; rfl
    | some gp =>
      obtain ⟨grid, pp⟩ := gp
      cases hs : grid.setIndex pp (Tile.new TileType.Floor) with
      | none => left; simp [hs]
      | some grid2 =>
        right
        simp only [hs]
        exact ⟨_, rfl⟩

/-! ## Grid write lemmas -/

theorem Grid.setIndex_dims {g g' : Grid} {p : Nat × Nat} {t : Tile}
    (h : g.setIndex p t = some g') : g'.nRows = g.nRows ∧ g'.nCols = g.nCols := by
  unfold Grid.setIndex at h
  split at h
  · cases h; exact ⟨rfl, rfl⟩
  · cases h

theorem Grid.setIndex_isSome {g : Grid} {p : Nat × Nat} {t : Tile}
    (h2 : p.2 < g.nRows) (h1 : p.1 < g.nCols) : ∃ g', g.setIndex p t = some g' := by
  unfold Grid.setIndex
  rw [if_pos ⟨h2, h1⟩]
  exact ⟨_, rfl⟩

theorem Grid.setIndex_none {g : Grid} {p : Nat × Nat} {t : Tile}
    (h : ¬ (p.2 < g.nRows ∧ p.1 < g.nCols)) : g.setIndex p t = none := by
  unfold Grid.setIndex
  rw [if_neg h]

theorem Grid.setIndex_cells {g g' : Grid} {p : Nat × Nat} {t : Tile}
    (h : g.setIndex p t = some g') :
    g'.cells = fun r c => if r = p.2 ∧ c = p.1 then t else g.cells r c := by
  unfold Grid.setIndex at h
  split at h
  · cases h; rfl
  · cases h

/-! ## `writeRow` lemmas -/

theorem writeRow_dims : ∀ {ts : List Tile} {g g' : Grid} {x y : Nat},
    writeRow g ts x y = some g' → g'.nRows = g.nRows ∧ g'.nCols = g.nCols := by
  intro ts
  induction ts with
  | nil => intro g g' x y h; cases h; exact ⟨rfl, rfl⟩
  | cons t ts ih =>
    intro g g' x y h
    unfold writeRow at h
    cases hs : g.setIndex (x, y) t with
    | none => rw [hs] at h; cases h
    | some g1 =>
      rw [hs] at h
      have d1 := Grid.setIndex_dims hs
      have d2 := ih h
      exact ⟨d2.1.trans d1.1, d2.2.trans d1.2⟩

theorem writeRow_isSome : ∀ {ts : List Tile} {g : Grid} {x y : Nat},
    y < g.nRows → x + ts.length ≤ g.nCols → ∃ g', writeRow g ts x y = some g' := by
  intro ts
  induction ts with
  | nil => intro g x y _ _; exact ⟨g, rfl⟩
  | cons t ts ih =>
    intro g x y hy hx
    have hxc : x < g.nCols := by simp at hx; omega
    obtain ⟨g1, hg1⟩ := @Grid.setIndex_isSome g (x, y) t hy hxc
    have d1 := Grid.setIndex_dims hg1
    obtain ⟨g', hg'⟩ := @ih g1 (x + 1) y
      (by rw [d1.1]; exact hy) (by rw [d1.2]; simp at hx ⊢; omega)
    exact ⟨g', by unfold writeRow; rw [hg1]; exact hg'⟩

theorem writeRow_none : ∀ {ts : List Tile} {g : Grid} {x y : Nat},
    ts ≠ [] → (g.nRows ≤ y ∨ g.nCols < x + ts.length) → writeRow g ts x y = none := by
  intro ts
  induction ts with
  | nil => intro g x y h _; exact absurd rfl h
  | cons t ts ih =>
    intro g x y _ hfail
    unfold writeRow
    by_cases hok : y < g.nRows ∧ x < g.nCols
    · obtain ⟨g1, hg1⟩ := @Grid.setIndex_isSome g (x, y) t hok.1 hok.2
      rw [hg1]
      have d1 := Grid.setIndex_dims hg1
      show writeRow g1 ts (x + 1) y = none
      have hts : ts ≠ [] := by
        rcases hfail with h | h
        · exact absurd hok.1 (by omega)
        · have hlen : 1 ≤ ts.length := by
            simp only [List.length_cons] at h
            omega
          exact List.ne_nil_of_length_pos (by omega)
      apply ih hts
      rcases hfail with h | h
      · left; omega
      · right; rw [d1.2]; simp only [List.length_cons] at h; omega
    · rw [Grid.setIndex_none (by simpa using hok)]
      rfl

/-! ## `scanLine` lemmas -/

theorem scanLine_length : ∀ {line : List Char} {x y : Nat} {pp ppf : Nat × Nat}
    {tiles : List Tile},
    scanLine TileMapping.new line x y pp = some (tiles, ppf) →
    tiles.length = line.length := by
  intro line
  induction line with
  | nil => intro x y pp ppf tiles h; cases h; rfl
  | cons c cs ih =>
    intro x y pp ppf tiles h
    unfold scanLine at h
    cases htt : TileMapping.get_tile_type TileMapping.new c with
    | none => rw [htt] at h; cases h
    | some tt =>
      rw [htt] at h
      simp only at h
      cases hrec : scanLine TileMapping.new cs (x + 1) y
          (if (Tile.new tt).tile_type = TileType.Player then (x, y) else pp) with
      | none => rw [hrec] at h; cases h
      | some p =>
        rw [hrec] at h
        obtain ⟨ts, ppf'⟩ := p
        simp only at h
        cases h
        simpa using ih hrec

/-- In the codec table, the only glyph whose tile kind is `Player` is `'@'`. -/
theorem get_tile_type_player {c : Char} {tt : TileType}
    (h : TileMapping.get_tile_type TileMapping.new c = some tt)
    (hp : tt = TileType.Player) : c = '@' := by
  subst hp
  unfold TileMapping.get_tile_type at h
  obtain ⟨row, hfind, hmap⟩ := Option.map_eq_some'.1 h
  have hchar : row.character = c := by
    have := List.find?_some hfind
    simpa using this
  have hmem := List.mem_of_find?_eq_some hfind
  fin_cases hmem <;> first | exact hchar.symm | simp_all

theorem scanLine_isSome : ∀ {line : List Char} {x y : Nat} {pp : Nat × Nat},
    (∀ c ∈ line, (TileMapping.get_tile_type TileMapping.new c).isSome) →
    ∃ tiles ppf, scanLine TileMapping.new line x y pp = some (tiles, ppf) := by
  intro line
  induction line with
  | nil => intro x y pp _; exact ⟨[], pp, rfl⟩
  | cons c cs ih =>
    intro x y pp hall
    obtain ⟨tt, htt⟩ := Option.isSome_iff_exists.1 (hall c (by simp))
    obtain ⟨tiles, ppf, hrec⟩ := @ih (x + 1) y
      (if (Tile.new tt).tile_type = TileType.Player then (x, y) else pp)
      (fun c hc => hall c (by simp [hc]))
    refine ⟨Tile.new tt :: tiles, ppf, ?_⟩
    unfold scanLine
    rw [htt]
    simp only [hrec]

theorem scanLine_pp_of_no_player : ∀ {line : List Char} {x y : Nat} {pp ppf : Nat × Nat}
    {tiles : List Tile},
    (∀ c ∈ line, c ≠ '@') →
    scanLine TileMapping.new line x y pp = some (tiles, ppf) → ppf = pp := by
  intro line
  induction line with
  | nil => intro x y pp ppf tiles _ h; cases h; rfl
  | cons c cs ih =>
    intro x y pp ppf tiles hno h
    unfold scanLine at h
    cases htt : TileMapping.get_tile_type TileMapping.new c with
    | none => rw [htt] at h; cases h
    | some tt =>
      rw [htt] at h
      simp only at h
      have hnp : (Tile.new tt).tile_type ≠ TileType.Player := by
        intro hc
        exact hno c (by simp) (get_tile_type_player htt (by simpa [Tile.new] using hc))
      rw [if_neg hnp] at h
      cases hrec : scanLine TileMapping.new cs (x + 1) y pp with
      | none => rw [hrec] at h; cases h
      | some p =>
        rw [hrec] at h
        obtain ⟨ts, ppf'⟩ := p
        simp only at h
        cases h
        exact ih (fun c hc => hno c (by simp [hc])) hrec

/-! ## `processLines` lemmas -/

theorem processLines_isSome : ∀ {lines : List (List Char)} {y : Nat} {g : Grid}
    {pp : Nat × Nat},
    (∀ l ∈ lines, ∀ c ∈ l, (TileMapping.get_tile_type TileMapping.new c).isSome) →
    (∀ l ∈ lines, l.length ≤ g.nCols) →
    y + lines.length ≤ g.nRows →
    ∃ g' pp', processLines TileMapping.new lines y g pp = some (g', pp') ∧
      g'.nRows = g.nRows ∧ g'.nCols = g.nCols ∧
      ((∀ l ∈ lines, ∀ c ∈ l, c ≠ '@') → pp' = pp) := by
  intro lines
  induction lines with
  | nil => intro y g pp _ _ _; exact ⟨g, pp, rfl, rfl, rfl, fun _ => rfl⟩
  | cons line rest ih =>
    intro y g pp hall hlen hrows
    obtain ⟨tiles, pp1, hscan⟩ := @scanLine_isSome line 0 y pp
      (fun c hc => hall line (by simp) c hc)
    have htl : tiles.length = line.length := scanLine_length hscan
    obtain ⟨g1, hg1⟩ := @writeRow_isSome tiles g 0 y
      (by simp at hrows; omega)
      (by rw [htl]; simpa using hlen line (by simp))
    have d1 := writeRow_dims hg1
    obtain ⟨g', pp', hrec, hr, hc, hnp⟩ := @ih (y + 1) g1 pp1
      (fun l hl c hc => hall l (by simp [hl]) c hc)
      (fun l hl => by rw [d1.2]; exact hlen l (by simp [hl]))
      (by rw [d1.1]; simp at hrows ⊢; omega)
    refine ⟨g', pp', ?_, hr.trans d1.1, hc.trans d1.2, ?_⟩
    · unfold processLines
      rw [hscan]
      simp only [Option.bind_eq_bind, Option.some_bind, hg1]
      exact hrec
    · intro hno
      have hpp1 : pp1 = pp := scanLine_pp_of_no_player
        (fun c hc => hno line (by simp) c hc) hscan
      rw [hnp (fun l hl c hc => hno l (by simp [hl]) c hc), hpp1]

theorem processLines_all_nil : ∀ {lines : List (List Char)} {y : Nat} {g : Grid}
    {pp : Nat × Nat}, (∀ l ∈ lines, l = []) →
    processLines TileMapping.new lines y g pp = some (g, pp) := by
  intro lines
  induction lines with
  | nil => intro y g pp _; rfl
  | cons line rest ih =>
    intro y g pp hall
    have h0 : line = [] := hall line (by simp)
    subst h0
    unfold processLines
    show (some ([], pp)).bind _ = _
    simp only [Option.some_bind]
    show (some g).bind _ = _
    simp only [Option.some_bind]
    exact ih (fun l hl => hall l (by simp [hl]))

theorem processLines_none_of_tall : ∀ {lines : List (List Char)} {y : Nat} {g : Grid}
    {pp : Nat × Nat} {W : Nat},
    (∀ l ∈ lines, l.length = W) → 1 ≤ W → g.nRows = W → W ≤ g.nCols →
    y ≤ W → W < y + lines.length →
    processLines TileMapping.new lines y g pp = none := by
  intro lines
  induction lines with
  | nil => intro y g pp W _ _ _ _ hy hlt; simp at hlt; omega
  | cons line rest ih =>
    intro y g pp W hlen hW hrows hcols hy hlt
    unfold processLines
    cases hscan : scanLine TileMapping.new line 0 y pp with
    | none => rfl
    | some tp =>
      obtain ⟨tiles, pp1⟩ := tp
      have htl : tiles.length = W := (scanLine_length hscan).trans (hlen line (by simp))
      simp only [Option.bind_eq_bind, Option.some_bind]
      rcases Nat.lt_or_ge y W with hyW | hyW
      · obtain ⟨g1, hg1⟩ := @writeRow_isSome tiles g 0 y
          (by omega) (by rw [htl]; omega)
        have d1 := writeRow_dims hg1
        rw [hg1]
        simp only [Option.some_bind]
        exact ih (fun l hl => hlen l (by simp [hl])) hW (d1.1.trans hrows)
          (by rw [d1.2]; exact hcols) (by omega) (by simp at hlt ⊢; omega)
      · have hyeq : y = W := by omega
        rw [writeRow_none (by rw [← List.length_pos_iff_ne_nil, htl]; omega)
          (Or.inl (by omega))]
        rfl

theorem Grid.new_nRows (w h : Nat) (tt : TileType) : (Grid.new w h tt).nRows = h := rfl

theorem Grid.new_nCols (w h : Nat) (tt : TileType) : (Grid.new w h tt).nCols = w := rfl

/-- Exit path of `StringMapGenerator::generate`: panic inside the line loop. -/
theorem generate_none_of_processLines_none {s : List Char}
    (h : processLines TileMapping.new (splitNewline (trimChars s)) 0
      (Grid.new (splitNewline (trimChars s)).length
        ((splitNewline (trimChars s)).headD []).length TileType.Empty) (0, 0) = none) :
    StringMapGenerator.generate s = none := by
  unfold StringMapGenerator.generate
  simp only [List.isEmpty_iff, if_neg (splitNewline_ne_nil (trimChars s)), h]

/-- Exit path of `StringMapGenerator::generate`: panic at the player write. -/
theorem generate_none_of_setIndex_none {s : List Char} {g : Grid} {pp : Nat × Nat}
    (h1 : processLines TileMapping.new (splitNewline (trimChars s)) 0
      (Grid.new (splitNewline (trimChars s)).length
        ((splitNewline (trimChars s)).headD []).length TileType.Empty) (0, 0) = some (g, pp))
    (h2 : g.setIndex pp (Tile.new TileType.Floor) = none) :
    StringMapGenerator.generate s = none := by
  unfold StringMapGenerator.generate
  simp only [List.isEmpty_iff, if_neg (splitNewline_ne_nil (trimChars s)), h1, h2]

/-- Exit path of `StringMapGenerator::generate`: success. -/
theorem generate_ok_of_setIndex_some {s : List Char} {g g2 : Grid} {pp : Nat × Nat}
    (h1 : processLines TileMapping.new (splitNewline (trimChars s)) 0
      (Grid.new (splitNewline (trimChars s)).length
        ((splitNewline (trimChars s)).headD []).length TileType.Empty) (0, 0) = some (g, pp))
    (h2 : g.setIndex pp (Tile.new TileType.Floor) = some g2) :
    ∃ m, StringMapGenerator.generate s = some (Except.ok m) ∧
      m.player_position = pp ∧ m.grid = g2 := by
  unfold StringMapGenerator.generate
  simp only [List.isEmpty_iff, if_neg (splitNewline_ne_nil (trimChars s)), h1, h2]
  exact ⟨_, rfl, rfl, rfl⟩

/-- C4: `StringMapGenerator::generate` passes `(line count, line length)` to
`Grid::new`, whose parameters are `(width, height)`; the grid it builds
therefore has `line length` rows of `line count` columns.  For every
rectangular input whose number of lines differs from its line length some
grid write (a per-cell write, or — when the lines are empty — the final
player-spawn write) indexes out of bounds and the whole operation panics, so
`generate` can return a map only when the input is square. -/
theorem stringMapGenerator_nonsquare_fails (s : List Char)
    (hrect : ∀ l ∈ splitNewline (trimChars s),
      l.length = ((splitNewline (trimChars s)).headD []).length)
    (hne : (splitNewline (trimChars s)).length ≠
      ((splitNewline (trimChars s)).headD []).length) :
    StringMapGenerator.generate s = none := by
  have hnn : splitNewline (trimChars s) ≠ [] := splitNewline_ne_nil _
  obtain ⟨l0, rest, hcons⟩ := List.exists_cons_of_ne_nil hnn
  have hhead : (splitNewline (trimChars s)).headD [] = l0 := by rw [hcons]; rfl
  rw [hhead] at hrect hne
  rcases Nat.eq_zero_or_pos l0.length with hW0 | hWpos
  · -- every line is empty: the per-cell loop writes nothing, but the final
    -- player write hits a grid with zero rows
    apply @generate_none_of_setIndex_none s
      (Grid.new (splitNewline (trimChars s)).length
        ((splitNewline (trimChars s)).headD []).length TileType.Empty) ((0, 0))
    · exact processLines_all_nil
        (fun l hl => List.length_eq_zero.1 ((hrect l hl).trans hW0))
    · apply Grid.setIndex_none
      rw [Grid.new_nRows, hhead]
      omega
  · apply generate_none_of_processLines_none
    rcases Nat.lt_or_ge (splitNewline (trimChars s)).length l0.length with hHW | hHW
    · -- more columns than lines: the first row's writes overrun the columns
      rw [hcons]
      unfold processLines
      cases hscan : scanLine TileMapping.new l0 0 0 (0, 0) with
      | none => rfl
      | some tp =>
        obtain ⟨tiles, pp1⟩ := tp
        have htl : tiles.length = l0.length := scanLine_length hscan
        simp only [Option.bind_eq_bind, Option.some_bind]
        rw [writeRow_none (by rw [← List.length_pos_iff_ne_nil, htl]; omega)
          (Or.inr (by rw [htl, Grid.new_nCols, ← hcons]; omega))]
        rfl
    · -- more lines than columns: the row at index `line length` overruns the rows
      have hWH : l0.length < (splitNewline (trimChars s)).length := by omega
      exact processLines_none_of_tall
        (fun l hl => hrect l hl) hWpos
        (by rw [Grid.new_nRows, hhead])
        (by rw [Grid.new_nCols]; omega)
        (by omega) (by simp [hcons] at hWH ⊢; omega)

theorem stringMapGenerator_nonsquare_fails_witness :
    StringMapGenerator.generate ['#', '#', '\n', '#', '#', '\n', '#', '#'] = none :=
  stringMapGenerator_nonsquare_fails _ (by decide) (by decide)

/-- C9: a square, non-empty input whose glyphs are all in the codec table and
which contains no `'@'` still yields a map: `player_position` keeps its
initialisation `(0, 0)` and the tile at `(0, 0)` is overwritten to Floor
regardless of the glyph parsed there. -/
theorem stringMapGenerator_no_player_defaults (s : List Char)
    (hrect : ∀ l ∈ splitNewline (trimChars s),
      l.length = (splitNewline (trimChars s)).length)
    (hchars : ∀ l ∈ splitNewline (trimChars s), ∀ c ∈ l,
      (TileMapping.get_tile_type TileMapping.new c).isSome)
    (hnoat : ∀ l ∈ splitNewline (trimChars s), ∀ c ∈ l, c ≠ '@') :
    ∃ m, StringMapGenerator.generate s = some (Except.ok m) ∧
      m.player_position = (0, 0) ∧
      m.grid.index (0, 0) = some (Tile.new TileType.Floor) := by
  have hnn : splitNewline (trimChars s) ≠ [] := splitNewline_ne_nil _
  obtain ⟨l0, rest, hcons⟩ := List.exists_cons_of_ne_nil hnn
  have hhead : (splitNewline (trimChars s)).headD [] = l0 := by rw [hcons]; rfl
  have hH1 : 1 ≤ (splitNewline (trimChars s)).length := List.length_pos_iff_ne_nil.2 hnn
  have hWH : ((splitNewline (trimChars s)).headD []).length =
      (splitNewline (trimChars s)).length := by
    rw [hhead]
    exact hrect l0 (by rw [hcons]; simp)
  obtain ⟨g', pp', hproc, hr, hc, hnp⟩ := @processLines_isSome
    (splitNewline (trimChars s)) 0
    (Grid.new (splitNewline (trimChars s)).length
      ((splitNewline (trimChars s)).headD []).length TileType.Empty) ((0, 0))
    hchars
    (fun l hl => by rw [Grid.new_nCols, hrect l hl])
    (by rw [Grid.new_nRows, hWH]; omega)
  have hpp : pp' = (0, 0) := hnp hnoat
  have hr' : g'.nRows = (splitNewline (trimChars s)).length := by
    rw [hr, Grid.new_nRows, hWH]
  have hc' : g'.nCols = (splitNewline (trimChars s)).length := by
    rw [hc, Grid.new_nCols]
  obtain ⟨g2, hg2⟩ := @Grid.setIndex_isSome g' pp'
    (Tile.new TileType.Floor) (by rw [hpp, hr']; omega) (by rw [hpp, hc']; omega)
  obtain ⟨m, hm, hmp, hmg⟩ := generate_ok_of_setIndex_some hproc hg2
  refine ⟨m, hm, hmp.trans hpp, ?_⟩
  have d2 := Grid.setIndex_dims hg2
  have hcell := Grid.setIndex_cells hg2
  rw [hmg]
  unfold Grid.index
  rw [if_pos ⟨by rw [d2.1, hr']; omega, by rw [d2.2, hc']; omega⟩]
  rw [hcell]
  simp [hpp]

theorem stringMapGenerator_no_player_defaults_witness :
    ∃ m, StringMapGenerator.generate ['#', '#', '\n', '#', '.'] = some (Except.ok m) ∧
      m.player_position = (0, 0) ∧
      m.grid.index (0, 0) = some (Tile.new TileType.Floor) :=
  stringMapGenerator_no_player_defaults _ (by decide) (by decide) (by decide)

/-! ## Coordinate transforms (`grid_to_world` / `world_to_grid`)

`f32` is modelled as `ℚ` (exact arithmetic; all quantities involved are exact
`f32` values for any allocatable grid), and Rust's saturating `f32 as usize`
cast as floor followed by clamping at zero (truncation toward zero and floor
agree after the clamp). -/

/-- `TILE_SIZE` from `main.rs`. -/
def TILE_SIZE : ℚ := 4.0

/-- `bevy::math::Vec3`, with exact-rational components. -/
structure Vec3 where
  x : ℚ
  y : ℚ
  z : ℚ
deriving DecidableEq, Repr

/-- Rust `f32 as usize`: truncate toward zero, saturating at `0` for negative
(and NaN) inputs.  On nonnegative inputs truncation equals floor, and every
negative input clamps to `0`, so `Int.toNat ∘ Int.floor` is the same map. -/
def f32AsUsize (q : ℚ) : Nat := ⌊q⌋.toNat

/-- `GameMap::grid_to_world` from `main.rs`. -/
def GameMap.grid_to_world (m : GameMap) (x y : Nat) : Vec3 :=
  ⟨((x : ℚ) - (m.center.1 : ℚ)) * TILE_SIZE, 0,
   ((y : ℚ) - (m.center.2 : ℚ)) * TILE_SIZE⟩

/-- `GameMap::world_to_grid` from `main.rs`. -/
def GameMap.world_to_grid (m : GameMap) (position : Vec3) : Nat × Nat :=
  (f32AsUsize ((position.x + 0.5 * TILE_SIZE) / TILE_SIZE + (m.center.1 : ℚ)),
   f32AsUsize ((position.z + 0.5 * TILE_SIZE) / TILE_SIZE + (m.center.2 : ℚ)))

theorem floor_add_half (n : Nat) : ⌊(n : ℚ) + 1 / 2⌋ = (n : ℤ) := by
  rw [show ((n : ℚ) + 1 / 2) = ((n : ℤ) : ℚ) + 1 / 2 by push_cast; ring]
  rw [Int.floor_int_add]
  norm_num

/-- C5: the round trip `world_to_grid (grid_to_world (x, y))` is the identity
on every cell — the half-tile bias added before truncation cancels the
centering offset exactly (the biased coordinate is `x + 1/2`, whose floor is
`x`).  The claim restricts to in-bounds cells; the hypotheses are carried
along even though the computation never uses them. -/
theorem world_to_grid_grid_to_world (m : GameMap) (x y : Nat)
    (hx : x < m.width) (hy : y < m.height) :
    m.world_to_grid (m.grid_to_world x y) = (x, y) := by
  unfold GameMap.world_to_grid GameMap.grid_to_world f32AsUsize
  have hexp : ∀ n c : Nat, (((n : ℚ) - (c : ℚ)) * TILE_SIZE + 0.5 * TILE_SIZE) / TILE_SIZE
      + (c : ℚ) = (n : ℚ) + 1 / 2 := by
    intro n c
    unfold TILE_SIZE
    norm_num
    ring
  simp only [hexp, floor_add_half, Int.toNat_natCast]

def roundTripSampleMap : GameMap :=
  { grid := Grid.new 10 8 TileType.Floor, tile_mapping := TileMapping.new,
    player_position := (5, 4), monsters := [], items := [],
    center := (5, 4), width := 10, height := 8 }

theorem world_to_grid_grid_to_world_witness :
    roundTripSampleMap.world_to_grid (roundTripSampleMap.grid_to_world 3 7) = (3, 7) :=
  world_to_grid_grid_to_world roundTripSampleMap 3 7 (by decide) (by decide)

/-- C10: `world_to_grid` is total (the model returns a pair for every finite
position; there is no panicking path in the function) and saturates at zero:
whenever the biased, scaled `x` coordinate is nonpositive — in particular for
every `position.x ≤ -(center.0 + 0.5) * TILE_SIZE` — the `f32 as usize` cast
clamps it to cell index `0` instead of failing. -/
theorem world_to_grid_saturates (m : GameMap) (v : Vec3)
    (hx : v.x ≤ -(((m.center.1 : ℚ) + 0.5) * TILE_SIZE)) :
    (m.world_to_grid v).1 = 0 := by
  unfold GameMap.world_to_grid f32AsUsize
  have hq : (v.x + 0.5 * TILE_SIZE) / TILE_SIZE + (m.center.1 : ℚ) ≤ 0 := by
    have hrw : (v.x + 0.5 * TILE_SIZE) / TILE_SIZE + (m.center.1 : ℚ) =
        (v.x + 2 + 4 * (m.center.1 : ℚ)) / 4 := by
      unfold TILE_SIZE
      norm_num
      ring
    rw [hrw]
    apply div_nonpos_of_nonpos_of_nonneg
    · unfold TILE_SIZE at hx
      nlinarith [hx]
    · norm_num
  have hfl : ⌊(v.x + 0.5 * TILE_SIZE) / TILE_SIZE + (m.center.1 : ℚ)⌋ ≤ 0 := by
    have := Int.floor_le_floor hq
    simpa using this
  simp only [Int.toNat_of_nonpos hfl]

theorem world_to_grid_saturates_witness :
    (roundTripSampleMap.world_to_grid ⟨-100, 0, 0⟩).1 = 0 :=
  world_to_grid_saturates roundTripSampleMap ⟨-100, 0, 0⟩
    (by norm_num [TILE_SIZE, roundTripSampleMap])

/-! ## `BresenhamLine` -/

/-- `BresenhamLine` from `create_dungeon.rs` (`i32` fields as `Int`). -/
structure BresenhamLine where
  x0 : Int
  y0 : Int
  x1 : Int
  y1 : Int
  dx : Int
  sx : Int
  dy : Int
  sy : Int
  err : Int
  diagonal_allow : Bool
  finished : Bool
deriving DecidableEq, Repr

/-- `BresenhamLine::new` from `create_dungeon.rs`. -/
def BresenhamLine.new (x0 y0 x1 y1 : Int) (diagonal_allow : Bool) : BresenhamLine :=
  { x0 := x0, y0 := y0, x1 := x1, y1 := y1,
    dx := |x1 - x0|, sx := if x0 < x1 then 1 else -1,
    dy := -|y1 - y0|, sy := if y0 < y1 then 1 else -1,
    err := |x1 - x0| + -|y1 - y0|,
    diagonal_allow := diagonal_allow, finished := false }

/-- The state mutation performed by `<BresenhamLine as Iterator>::next` when
the iterator is neither finished nor at the endpoint (`y_walk` is the
source's flag recording that `x` stepped). -/
def BresenhamLine.step (s : BresenhamLine) : BresenhamLine :=
  let e2 := 2 * s.err
  let y_walk := decide (e2 > s.dy)
  let s1 := if e2 > s.dy then { s with err := s.err + s.dy, x0 := s.x0 + s.sx } else s
  if s.diagonal_allow || (!y_walk && !s.diagonal_allow) then
    if e2 < s1.dx then { s1 with err := s1.err + s1.dx, y0 := s1.y0 + s1.sy } else s1
  else s1

/-- `<BresenhamLine as Iterator>::next` from `create_dungeon.rs`. -/
def BresenhamLine.next (s : BresenhamLine) : Option ((Int × Int) × BresenhamLine) :=
  if s.finished then none
  else if s.x0 = s.x1 ∧ s.y0 = s.y1 then some ((s.x0, s.y0), { s with finished := true })
  else some ((s.x0, s.y0), s.step)

/-- Running the iterator with fuel, collecting the emitted points. -/
def BresenhamLine.run : Nat → BresenhamLine → List (Int × Int)
  | 0, _ => []
  | n + 1, s =>
    match s.next with
    | none => []
    | some (p, s') => p :: BresenhamLine.run n s'

/-- The full point sequence of a `BresenhamLine`; the fuel
`|x1-x0| + |y1-y0| + 1` is proved sufficient below. -/
def bresenhamPoints (x0 y0 x1 y1 : Int) (diagonal_allow : Bool) : List (Int × Int) :=
  BresenhamLine.run ((x1 - x0).natAbs + (y1 - y0).natAbs + 1)
    (BresenhamLine.new x0 y0 x1 y1 diagonal_allow)

/-- One emitted step moves exactly one unit along exactly one axis. -/
def stepAdj (p q : Int × Int) : Prop :=
  (|q.1 - p.1| = 1 ∧ q.2 = p.2) ∨ (q.1 = p.1 ∧ |q.2 - p.2| = 1)

/-- Reachability invariant of the Bresenham state: `r` and `t` are the
remaining step counts on each axis. -/
structure BresInv (s : BresenhamLine) (r t : Nat) : Prop where
  sx_unit : s.sx = 1 ∨ s.sx = -1
  sy_unit : s.sy = 1 ∨ s.sy = -1
  dx_nonneg : 0 ≤ s.dx
  dy_nonpos : s.dy ≤ 0
  hr : (r : Int) ≤ s.dx
  ht : (t : Int) ≤ -s.dy
  hx : s.x0 = s.x1 - r * s.sx
  hy : s.y0 = s.y1 - t * s.sy
  herr : s.err = s.dx + s.dy - r * s.dy - t * s.dx
  hfin : s.finished = false

theorem bresInv_new (x0 y0 x1 y1 : Int) (d : Bool) :
    BresInv (BresenhamLine.new x0 y0 x1 y1 d) (x1 - x0).natAbs (y1 - y0).natAbs := by
  refine ⟨?_, ?_, ?_, ?_, ?_, ?_, ?_, ?_, ?_, rfl⟩
  · show (if x0 < x1 then (1 : Int) else -1) = 1 ∨ (if x0 < x1 then (1 : Int) else -1) = -1
    split <;> simp
  · show (if y0 < y1 then (1 : Int) else -1) = 1 ∨ (if y0 < y1 then (1 : Int) else -1) = -1
    split <;> simp
  · show (0 : Int) ≤ |x1 - x0|
    positivity
  · show -|y1 - y0| ≤ (0 : Int)
    simp [abs_nonneg]
  · show ((x1 - x0).natAbs : Int) ≤ |x1 - x0|
    exact le_of_eq (Int.abs_eq_natAbs _).symm
  · show ((y1 - y0).natAbs : Int) ≤ - -|y1 - y0|
    rw [neg_neg]
    exact le_of_eq (Int.abs_eq_natAbs _).symm
  · show x0 = x1 - (x1 - x0).natAbs * (if x0 < x1 then (1 : Int) else -1)
    split <;> rename_i h <;> omega
  · show y0 = y1 - (y1 - y0).natAbs * (if y0 < y1 then (1 : Int) else -1)
    split <;> rename_i h <;> omega
  · show |x1 - x0| + -|y1 - y0| =
      |x1 - x0| + -|y1 - y0| - ((x1 - x0).natAbs : Int) * -|y1 - y0| -
        ((y1 - y0).natAbs : Int) * |x1 - x0|
    rw [Int.abs_eq_natAbs, Int.abs_eq_natAbs]
    ring

theorem bresInv_target_iff {s : BresenhamLine} {r t : Nat} (h : BresInv s r t) :
    (s.x0 = s.x1 ∧ s.y0 = s.y1) ↔ (r = 0 ∧ t = 0) := by
  rw [h.hx, h.hy]
  rcases h.sx_unit with h1 | h1 <;> rcases h.sy_unit with h2 | h2 <;>
    rw [h1, h2] <;> constructor <;> intro hc <;> obtain ⟨ha, hb⟩ := hc <;>
    constructor <;> omega

theorem BresenhamLine.step_const (s : BresenhamLine) :
    s.step.x1 = s.x1 ∧ s.step.y1 = s.y1 ∧ s.step.dx = s.dx ∧ s.step.dy = s.dy ∧
    s.step.sx = s.sx ∧ s.step.sy = s.sy ∧
    s.step.diagonal_allow = s.diagonal_allow ∧ s.step.finished = s.finished := by
  unfold BresenhamLine.step
  dsimp only
  split_ifs <;> simp

theorem BresenhamLine.step_x_only_nd (s : BresenhamLine)
    (h1 : 2 * s.err > s.dy) (hd : s.diagonal_allow = false) :
    s.step = { s with err := s.err + s.dy, x0 := s.x0 + s.sx } := by
  unfold BresenhamLine.step
  dsimp only
  split_ifs with ha hb hc <;> simp_all

theorem BresenhamLine.step_x_only_blocked (s : BresenhamLine)
    (h1 : 2 * s.err > s.dy) (hd : s.diagonal_allow = true) (h3 : ¬ 2 * s.err < s.dx) :
    s.step = { s with err := s.err + s.dy, x0 := s.x0 + s.sx } := by
  unfold BresenhamLine.step
  dsimp only
  split_ifs with ha hb hc <;> simp_all

theorem BresenhamLine.step_xy (s : BresenhamLine)
    (h1 : 2 * s.err > s.dy) (hd : s.diagonal_allow = true) (h3 : 2 * s.err < s.dx) :
    s.step = { s with err := s.err + s.dy + s.dx, x0 := s.x0 + s.sx, y0 := s.y0 + s.sy } := by
  unfold BresenhamLine.step
  dsimp only
  split_ifs with ha hb hc <;> simp_all

theorem BresenhamLine.step_y_only (s : BresenhamLine)
    (h1 : ¬ 2 * s.err > s.dy) (h3 : 2 * s.err < s.dx) :
    s.step = { s with err := s.err + s.dx, y0 := s.y0 + s.sy } := by
  unfold BresenhamLine.step
  dsimp only
  split_ifs with ha hb hc <;> simp_all <;> cases s.diagonal_allow <;> simp_all

theorem bresInv_step_x {s : BresenhamLine} {r t : Nat} (h : BresInv s r t) (hr1 : 1 ≤ r) :
    BresInv { s with err := s.err + s.dy, x0 := s.x0 + s.sx } (r - 1) t := by
  obtain ⟨hsx, hsy, hD, hE, hr, ht, hx, hy, herr, hfin⟩ := h
  have hc : ((r - 1 : ℕ) : ℤ) = (r : ℤ) - 1 := by omega
  refine ⟨hsx, hsy, hD, hE, ?_, ht, ?_, hy, ?_, hfin⟩
  · show ((r - 1 : ℕ) : ℤ) ≤ s.dx
    omega
  · show s.x0 + s.sx = s.x1 - ((r - 1 : ℕ) : ℤ) * s.sx
    rw [hx, hc]; ring
  · show s.err + s.dy = s.dx + s.dy - ((r - 1 : ℕ) : ℤ) * s.dy - (t : ℤ) * s.dx
    rw [herr, hc]; ring

theorem bresInv_step_y {s : BresenhamLine} {r t : Nat} (h : BresInv s r t) (ht1 : 1 ≤ t) :
    BresInv { s with err := s.err + s.dx, y0 := s.y0 + s.sy } r (t - 1) := by
  obtain ⟨hsx, hsy, hD, hE, hr, ht, hx, hy, herr, hfin⟩ := h
  have hc : ((t - 1 : ℕ) : ℤ) = (t : ℤ) - 1 := by omega
  refine ⟨hsx, hsy, hD, hE, hr, ?_, hx, ?_, ?_, hfin⟩
  · show ((t - 1 : ℕ) : ℤ) ≤ -s.dy
    omega
  · show s.y0 + s.sy = s.y1 - ((t - 1 : ℕ) : ℤ) * s.sy
    rw [hy, hc]; ring
  · show s.err + s.dx = s.dx + s.dy - (r : ℤ) * s.dy - ((t - 1 : ℕ) : ℤ) * s.dx
    rw [herr, hc]; ring

theorem bresInv_step_both {s : BresenhamLine} {r t : Nat} (h : BresInv s r t)
    (hr1 : 1 ≤ r) (ht1 : 1 ≤ t) :
    BresInv { s with err := s.err + s.dy + s.dx, x0 := s.x0 + s.sx, y0 := s.y0 + s.sy }
      (r - 1) (t - 1) := by
  obtain ⟨hsx, hsy, hD, hE, hr, ht, hx, hy, herr, hfin⟩ := h
  have hcr : ((r - 1 : ℕ) : ℤ) = (r : ℤ) - 1 := by omega
  have hct : ((t - 1 : ℕ) : ℤ) = (t : ℤ) - 1 := by omega
  refine ⟨hsx, hsy, hD, hE, ?_, ?_, ?_, ?_, ?_, hfin⟩
  · show ((r - 1 : ℕ) : ℤ) ≤ s.dx
    omega
  · show ((t - 1 : ℕ) : ℤ) ≤ -s.dy
    omega
  · show s.x0 + s.sx = s.x1 - ((r - 1 : ℕ) : ℤ) * s.sx
    rw [hx, hcr]; ring
  · show s.y0 + s.sy = s.y1 - ((t - 1 : ℕ) : ℤ) * s.sy
    rw [hy, hct]; ring
  · show s.err + s.dy + s.dx =
      s.dx + s.dy - ((r - 1 : ℕ) : ℤ) * s.dy - ((t - 1 : ℕ) : ℤ) * s.dx
    rw [herr, hcr, hct]; ring

/-- Core progress lemma: away from the endpoint the iterator's step keeps the
invariant, strictly decreases the remaining distance, and moves one unit on a
single axis unless the state is in diagonal mode with both axes still
pending. -/
theorem bresInv_step {s : BresenhamLine} {r t : Nat} (h : BresInv s r t)
    (hne : ¬ (r = 0 ∧ t = 0)) :
    ∃ r' t', BresInv s.step r' t' ∧ r' + t' < r + t ∧
      (((s.step.x0 = s.x0 + s.sx ∧ s.step.y0 = s.y0) ∨
        (s.step.x0 = s.x0 ∧ s.step.y0 = s.y0 + s.sy)) ∨
       (s.diagonal_allow = true ∧ s.dx ≠ 0 ∧ s.dy ≠ 0)) := by
  have hsx := h.sx_unit
  have hsy := h.sy_unit
  have hD := h.dx_nonneg
  have hE := h.dy_nonpos
  have hri := h.hr
  have hti := h.ht
  have herr := h.herr
  by_cases hxf : 2 * s.err > s.dy
  · -- `x` steps
    have hr1 : 1 ≤ r := by
      by_contra hr0
      have hr0' : r = 0 := by omega
      have ht1 : (1 : ℤ) ≤ (t : ℤ) := by
        have : t ≠ 0 := fun hc => hne ⟨hr0', hc⟩
        omega
      have hprod : 0 ≤ ((t : ℤ) - 1) * s.dx := mul_nonneg (by omega) hD
      rw [herr, hr0'] at hxf
      push_cast at hxf
      nlinarith [hxf, hprod, hE]
    by_cases hdg : s.diagonal_allow
    · by_cases hyf : 2 * s.err < s.dx
      · -- both axes step (diagonal mode only)
        have ht1 : 1 ≤ t := by
          by_contra ht0
          have ht0' : t = 0 := by omega
          have hprod : 0 ≤ ((r : ℤ) - 1) * (-s.dy) := mul_nonneg (by omega) (by omega)
          rw [herr, ht0'] at hyf
          push_cast at hyf
          nlinarith [hyf, hprod, hD]
        refine ⟨r - 1, t - 1, ?_, by omega, Or.inr ⟨hdg, by omega, by omega⟩⟩
        rw [BresenhamLine.step_xy s hxf hdg hyf]
        exact bresInv_step_both h hr1 ht1
      · -- only `x` steps
        refine ⟨r - 1, t, ?_, by omega, Or.inl (Or.inl ?_)⟩
        · rw [BresenhamLine.step_x_only_blocked s hxf hdg hyf]
          exact bresInv_step_x h hr1
        · rw [BresenhamLine.step_x_only_blocked s hxf hdg hyf]
          exact ⟨rfl, rfl⟩
    · -- diagonal disallowed: only `x` steps
      have hdg' : s.diagonal_allow = false := by simpa using hdg
      refine ⟨r - 1, t, ?_, by omega, Or.inl (Or.inl ?_)⟩
      · rw [BresenhamLine.step_x_only_nd s hxf hdg']
        exact bresInv_step_x h hr1
      · rw [BresenhamLine.step_x_only_nd s hxf hdg']
        exact ⟨rfl, rfl⟩
  · -- `x` does not step: `y` must step
    have ht1 : 1 ≤ t := by
      by_contra ht0
      have ht0' : t = 0 := by omega
      have hr1 : (1 : ℤ) ≤ (r : ℤ) := by
        have : r ≠ 0 := fun hc => hne ⟨hc, ht0'⟩
        omega
      have hprod : 0 ≤ ((r : ℤ) - 1) * (-s.dy) := mul_nonneg (by omega) (by omega)
      rw [herr, ht0'] at hxf
      push_cast at hxf
      nlinarith [hprod, hD, hE, hxf, hri]
    have hyf : 2 * s.err < s.dx := by
      have hdy1 : s.dy ≤ -1 := by omega
      omega
    refine ⟨r, t - 1, ?_, by omega, Or.inl (Or.inr ?_)⟩
    · rw [BresenhamLine.step_y_only s hxf hyf]
      exact bresInv_step_y h ht1
    · rw [BresenhamLine.step_y_only s hxf hyf]
      exact ⟨rfl, rfl⟩

theorem getLast?_cons_of_ne_nil {α : Type _} (a : α) {l : List α} (h : l ≠ []) :
    (a :: l).getLast? = l.getLast? := by
  cases l with
  | nil => exact absurd rfl h
  | cons b l => rfl

theorem bres_run_finished (n : Nat) (s : BresenhamLine) (h : s.finished = true) :
    BresenhamLine.run n s = [] := by
  cases n with
  | zero => rfl
  | succ n => simp [BresenhamLine.run, BresenhamLine.next, h]

theorem bres_next_at_target (s : BresenhamLine) (hfin : s.finished = false)
    (htar : s.x0 = s.x1 ∧ s.y0 = s.y1) :
    s.next = some ((s.x0, s.y0), { s with finished := true }) := by
  unfold BresenhamLine.next
  rw [if_neg (by simp [hfin]), if_pos htar]

theorem bres_next_step (s : BresenhamLine) (hfin : s.finished = false)
    (htar : ¬ (s.x0 = s.x1 ∧ s.y0 = s.y1)) :
    s.next = some ((s.x0, s.y0), s.step) := by
  unfold BresenhamLine.next
  rw [if_neg (by simp [hfin]), if_neg htar]

/-- Main run specification: from any state satisfying the invariant, with
enough fuel, the emitted list starts at the current point, ends exactly at
the endpoint, is a unit-step 4-connected chain whenever diagonal moves are
disallowed or the line is axis-aligned, and stays inside the bounding box of
the endpoint. -/
theorem bres_run_spec : ∀ (n : Nat) (s : BresenhamLine) (r t : Nat), BresInv s r t →
    r + t < n →
    (BresenhamLine.run n s).head? = some (s.x0, s.y0) ∧
    (BresenhamLine.run n s).getLast? = some (s.x1, s.y1) ∧
    ((s.diagonal_allow = false ∨ s.dx = 0 ∨ s.dy = 0) →
      List.Chain' stepAdj (BresenhamLine.run n s)) ∧
    (∀ p ∈ BresenhamLine.run n s, |s.x1 - p.1| ≤ s.dx ∧ |s.y1 - p.2| ≤ -s.dy ∧
      0 ≤ (s.x1 - p.1) * s.sx ∧ 0 ≤ (s.y1 - p.2) * s.sy) := by
  intro n
  induction n with
  | zero => intro s r t _ hlt; omega
  | succ n ih =>
    intro s r t hinv hlt
    have hfin := hinv.hfin
    have hbox0 : |s.x1 - s.x0| ≤ s.dx ∧ |s.y1 - s.y0| ≤ -s.dy ∧
        0 ≤ (s.x1 - s.x0) * s.sx ∧ 0 ≤ (s.y1 - s.y0) * s.sy := by
      have hxeq : s.x1 - s.x0 = (r : ℤ) * s.sx := by rw [hinv.hx]; ring
      have hyeq : s.y1 - s.y0 = (t : ℤ) * s.sy := by rw [hinv.hy]; ring
      have hr := hinv.hr
      have ht := hinv.ht
      have hD := hinv.dx_nonneg
      have hE := hinv.dy_nonpos
      refine ⟨?_, ?_, ?_, ?_⟩
      · rw [abs_le]
        rcases hinv.sx_unit with h | h <;> rw [h] at hxeq <;> omega
      · rw [abs_le]
        rcases hinv.sy_unit with h | h <;> rw [h] at hyeq <;> omega
      · rw [hxeq]
        rcases hinv.sx_unit with h | h <;> rw [h] <;> nlinarith [Nat.cast_nonneg (α := ℤ) r]
      · rw [hyeq]
        rcases hinv.sy_unit with h | h <;> rw [h] <;> nlinarith [Nat.cast_nonneg (α := ℤ) t]
    by_cases htar : s.x0 = s.x1 ∧ s.y0 = s.y1
    · have hrun : BresenhamLine.run (n + 1) s = [(s.x0, s.y0)] := by
        show (match s.next with
          | none => []
          | some (p, s') => p :: BresenhamLine.run n s') = _
        rw [bres_next_at_target s hfin htar]
        simp [bres_run_finished n { s with finished := true } rfl]
      rw [hrun]
      refine ⟨rfl, by simp [htar.1, htar.2], fun _ => by simp, ?_⟩
      intro p hp
      simp only [List.mem_singleton] at hp
      subst hp
      exact hbox0
    · have hne : ¬ (r = 0 ∧ t = 0) := fun hc => htar ((bresInv_target_iff hinv).2 hc)
      obtain ⟨r', t', hinv', hmeas, hmove⟩ := bresInv_step hinv hne
      obtain ⟨hcx1, hcy1, hcdx, hcdy, hcsx, hcsy, hcdiag, hcfin⟩ := BresenhamLine.step_const s
      have hrun : BresenhamLine.run (n + 1) s = (s.x0, s.y0) :: BresenhamLine.run n s.step := by
        show (match s.next with
          | none => []
          | some (p, s') => p :: BresenhamLine.run n s') = _
        rw [bres_next_step s hfin htar]
      obtain ⟨ihh, ihl, ihc, ihb⟩ := ih s.step r' t' hinv' (by omega)
      rw [hrun]
      have htail_ne : BresenhamLine.run n s.step ≠ [] := by
        intro hc
        rw [hc] at ihh
        cases ihh
      refine ⟨rfl, ?_, ?_, ?_⟩
      · rw [getLast?_cons_of_ne_nil _ htail_ne, ihl, hcx1, hcy1]
      · intro hmode
        rw [List.chain'_cons']
        refine ⟨?_, ihc (by rw [hcdiag, hcdx, hcdy]; exact hmode)⟩
        intro q hq
        rw [ihh] at hq
        simp only [Option.mem_def, Option.some.injEq] at hq
        subst hq
        rcases hmove with (⟨hmx, hmy⟩ | ⟨hmx, hmy⟩) | ⟨hdga, hdx0, hdy0⟩
        · left
          rw [hmx, hmy]
          refine ⟨?_, rfl⟩
          rcases hinv.sx_unit with h | h <;> rw [h] <;> simp
        · right
          rw [hmx, hmy]
          refine ⟨rfl, ?_⟩
          rcases hinv.sy_unit with h | h <;> rw [h] <;> simp
        · exfalso
          rcases hmode with h | h | h
          · rw [hdga] at h; cases h
          · exact hdx0 h
          · exact hdy0 h
      · intro p hp
        rcases List.mem_cons.1 hp with hp0 | hpl
        · subst hp0
          exact hbox0
        · have := ihb p hpl
          rw [hcx1, hcy1, hcdx, hcdy, hcsx, hcsy] at this
          exact this

/-- C6: for every `(x0, y0, x1, y1)` and either mode, the sequence produced
by `BresenhamLine` starts at `(x0, y0)` and ends at `(x1, y1)`; with diagonal
moves disallowed every pair of consecutive emitted cells differs by exactly
one unit on exactly one axis. -/
theorem bresenhamLine_endpoints_and_steps (x0 y0 x1 y1 : Int) (diagonal_allow : Bool) :
    (bresenhamPoints x0 y0 x1 y1 diagonal_allow).head? = some (x0, y0) ∧
    (bresenhamPoints x0 y0 x1 y1 diagonal_allow).getLast? = some (x1, y1) ∧
    (diagonal_allow = false →
      List.Chain' stepAdj (bresenhamPoints x0 y0 x1 y1 diagonal_allow)) := by
  obtain ⟨hh, hl, hc, _⟩ := bres_run_spec ((x1 - x0).natAbs + (y1 - y0).natAbs + 1)
    (BresenhamLine.new x0 y0 x1 y1 diagonal_allow)
    (x1 - x0).natAbs (y1 - y0).natAbs (bresInv_new x0 y0 x1 y1 diagonal_allow)
    (by omega)
  exact ⟨hh, hl, fun hd => hc (Or.inl hd)⟩

theorem bresenhamLine_endpoints_and_steps_witness :
    List.Chain' stepAdj (bresenhamPoints 0 0 5 3 false) :=
  (bresenhamLine_endpoints_and_steps 0 0 5 3 false).2.2 rfl

/-! ## The randomized room-packing generator (`MapGeneratorStart::generate`)

`rand::thread_rng()` is modelled as a stream of naturals with a cursor; every
bounded draw maps the next stream element into the requested range (so any
realisable draw sequence corresponds to some stream, and every draw is in
range exactly as `gen_range` guarantees).  A `gen_range` on an empty range
panics, as in Rust. -/

/-- The ambient thread-local RNG. -/
structure RNG where
  seq : Nat → Nat
  pos : Nat

/-- Draw the next stream element. -/
def RNG.next (r : RNG) : Nat × RNG := (r.seq r.pos, { r with pos := r.pos + 1 })

/-- `rng.gen_range(lo..=hi)` (inclusive range); panics when empty. -/
def RNG.genRangeIncl (r : RNG) (lo hi : Nat) : Option (Nat × RNG) :=
  if lo ≤ hi then
    let v := r.next
    some (lo + v.1 % (hi - lo + 1), v.2)
  else none

/-- `rng.gen_range(lo..hi)` (exclusive range); panics when empty. -/
def RNG.genRangeExcl (r : RNG) (lo hi : Nat) : Option (Nat × RNG) :=
  if lo < hi then
    let v := r.next
    some (lo + v.1 % (hi - lo), v.2)
  else none

/-- `rng.gen::<bool>()`. -/
def RNG.genBool (r : RNG) : Bool × RNG :=
  let v := r.next
  (decide (v.1 % 2 = 1), v.2)

/-- `rng.gen::<f32>()`: a uniform draw in `[0,1)`, modelled with 24-bit
resolution (the value is only ever compared against constants). -/
def RNG.genF32 (r : RNG) : ℚ × RNG :=
  let v := r.next
  (((v.1 % 16777216 : Nat) : ℚ) / 16777216, v.2)

/-- `usize` subtraction; underflow is a panic (debug semantics; in release the
wrapped value feeds `gen_range` and the subsequent writes panic instead). -/
def usizeSub (a b : Nat) : Option Nat := if b ≤ a then some (a - b) else none

/-- Rust `a..b` as a list of indices. -/
def rangeList (a b : Nat) : List Nat := (List.range (b - a)).map (a + ·)

/-- `Room::fill_grid` from `create_dungeon.rs`: set every cell of the open
interior `(x1+1..x2) × (y1+1..y2)` to Floor. -/
def Room.fill_grid (room : Room) (g : Grid) : Option Grid :=
  (rangeList (room.x1 + 1) room.x2).foldlM (fun g x =>
    (rangeList (room.y1 + 1) room.y2).foldlM (fun g y =>
      g.setTileType (x, y) TileType.Floor) g) g

/-- One tunnel write `grid[(point.0 as usize, point.1 as usize)] = Floor`.
The coordinates are `i32`; a negative coordinate wraps to a huge `usize` in
Rust and the write panics, which the model reflects as a panic. -/
def carvePoint (g : Grid) (p : Int × Int) : Option Grid :=
  if 0 ≤ p.1 ∧ 0 ≤ p.2 then g.setTileType (p.1.toNat, p.2.toNat) TileType.Floor
  else none

/-- Carving one Bresenham leg of a tunnel. -/
def carveLine (g : Grid) (pts : List (Int × Int)) : Option Grid :=
  pts.foldlM carvePoint g

/-- `Room::create_tunnel` from `create_dungeon.rs`: flip a coin for the elbow
orientation, then carve the two axis-aligned diagonal-allowed Bresenham legs. -/
def Room.create_tunnel (self : Room) (g : Grid) (other : Room) (rng : RNG) :
    Option (Grid × RNG) :=
  let center1 := self.center
  let center2 := other.center
  let hrng := rng.genBool
  let horizontal := hrng.1
  let corner_x := if horizontal then center2.1 else center1.1
  let corner_y := if horizontal then center1.2 else center2.2
  (carveLine g (bresenhamPoints (center1.1 : Int) (center1.2 : Int)
    (corner_x : Int) (corner_y : Int) true)).bind fun g1 =>
  (carveLine g1 (bresenhamPoints (corner_x : Int) (corner_y : Int)
    (center2.1 : Int) (center2.2 : Int) true)).bind fun g2 =>
  some (g2, hrng.2)

/-- Loop state of the room-placement pass of `MapGeneratorStart::generate`. -/
structure GenState where
  grid : Grid
  rooms : List Room
  player_position : Nat × Nat
  rng : RNG

/-- One iteration of the `for _ in 0..max_rooms` loop of
`MapGeneratorStart::generate`. -/
def genStep (width height room_min_size room_max_size : Nat) (s : GenState) :
    Option GenState :=
  (s.rng.genRangeIncl room_min_size room_max_size).bind fun p1 =>
  (p1.2.genRangeIncl room_min_size room_max_size).bind fun p2 =>
  (usizeSub width p1.1).bind fun u1 =>
  (usizeSub u1 1).bind fun u2 =>
  (p2.2.genRangeExcl 0 u2).bind fun p3 =>
  (usizeSub height p2.1).bind fun v1 =>
  (usizeSub v1 1).bind fun v2 =>
  (p3.2.genRangeExcl 0 v2).bind fun p4 =>
  let room_width := p1.1
  let room_height := p2.1
  let x := p3.1
  let y := p4.1
  let new_room := Room.new x y room_width room_height
  let intersection_found := s.rooms.any (fun room => room.intersects new_room)
  if intersection_found then some { s with rng := p4.2 }
  else
    (new_room.fill_grid s.grid).bind fun grid1 =>
    if s.rooms.length = 0 then
      some { grid := grid1, rooms := s.rooms ++ [new_room],
             player_position := new_room.center, rng := p4.2 }
    else
      (s.rooms.getLast?.elim none (fun last =>
        new_room.create_tunnel grid1 last p4.2)).bind fun gr =>
      some { grid := gr.1, rooms := s.rooms ++ [new_room],
             player_position := s.player_position, rng := gr.2 }

/-- The full `for _ in 0..max_rooms` loop. -/
def roomLoop (width height room_min_size room_max_size : Nat) :
    Nat → GenState → Option GenState
  | 0, s => some s
  | n + 1, s =>
    (genStep width height room_min_size room_max_size s).bind
      (roomLoop width height room_min_size room_max_size n)

/-- `add_monsters` from `create_dungeon.rs` (the type draw precedes the
position draws). -/
def add_monsters (grid : Grid) (rooms : List Room) (max_monsters_per_room : Nat)
    (rng : RNG) : Option (List MonsterInMap × RNG) :=
  rooms.foldlM (fun acc room =>
    (acc.2.genRangeIncl 0 max_monsters_per_room).bind fun pc =>
    (List.range pc.1).foldlM (fun acc2 _ =>
      let f := acc2.2.genF32
      let monster_type := if f.1 < 0.8 then MonsterType.Orc else MonsterType.Troll
      (f.2.genRangeExcl (room.x1 + 1) room.x2).bind fun px =>
      (px.2.genRangeExcl (room.y1 + 1) room.y2).bind fun py =>
      some (acc2.1 ++ [{ monster_type := monster_type, position := (px.1, py.1) }], py.2))
      (acc.1, pc.2)) (([] : List MonsterInMap), rng)

/-- The `item_type` selection expression inside `add_items` — the value the
source computes from the weighted draw (and then ignores). -/
def selectedItemKind (f : ℚ) : ItemType :=
  if f < 0.6 then ItemType.HealPotion else ItemType.Lightning

/-- The body of the per-item loop of `add_items`: the position draws precede
the kind draw; the source computes `item_type` from the weighted draw and
then pushes a literal `ItemType::HealPotion`, leaving `item_type` unused. -/
def addItemsStep (room : Room) (acc2 : List ItemInMap × RNG) :
    Option (List ItemInMap × RNG) :=
  (acc2.2.genRangeExcl (room.x1 + 1) room.x2).bind fun px =>
  (px.2.genRangeExcl (room.y1 + 1) room.y2).bind fun py =>
  let f := py.2.genF32
  let item_type := selectedItemKind f.1
  some (acc2.1 ++ [{ item_type := ItemType.HealPotion, position := (px.1, py.1) }], f.2)

/-- The body of the per-room loop of `add_items` (the shadowed
`items_per_room` count draw, then the per-item loop). -/
def addItemsRoom (items_per_room : Nat) (acc : List ItemInMap × RNG) (room : Room) :
    Option (List ItemInMap × RNG) :=
  (acc.2.genRangeIncl 0 items_per_room).bind fun pc =>
  (List.range pc.1).foldlM (fun acc2 _ => addItemsStep room acc2) (acc.1, pc.2)

/-- `add_items` from `create_dungeon.rs`. -/
def add_items (grid : Grid) (rooms : List Room) (items_per_room : Nat)
    (rng : RNG) : Option (List ItemInMap × RNG) :=
  rooms.foldlM (addItemsRoom items_per_room) (([] : List ItemInMap), rng)

/-- The loop body of `remove_walls` for one cell `(x, y)`: `continue` when an
existing axis-aligned neighbor is Floor, otherwise set the cell's kind to
Empty (the cell's own kind is never examined). -/
def removeWallsCell (width height : Nat) (g : Grid) (x y : Nat) : Option Grid :=
  (if y ≠ 0 then (g.index (x, y - 1)).map (fun t => decide (t.tile_type = TileType.Floor))
   else some false).bind fun up =>
  if up then some g else
  (if y ≠ height - 1 then (g.index (x, y + 1)).map (fun t => decide (t.tile_type = TileType.Floor))
   else some false).bind fun down =>
  if down then some g else
  (if x ≠ 0 then (g.index (x - 1, y)).map (fun t => decide (t.tile_type = TileType.Floor))
   else some false).bind fun left =>
  if left then some g else
  (if x ≠ width - 1 then (g.index (x + 1, y)).map (fun t => decide (t.tile_type = TileType.Floor))
   else some false).bind fun right =>
  if right then some g else
  g.setTileType (x, y) TileType.Empty

/-- `remove_walls` from `create_dungeon.rs` (`x` outer, `y` inner, mutating in
place). -/
def remove_walls (width height : Nat) (g : Grid) : Option Grid :=
  (List.range width).foldlM (fun g x =>
    (List.range height).foldlM (fun g y => removeWallsCell width height g x y) g) g

/-- `MapGeneratorStart` from `create_dungeon.rs`. -/
structure MapGeneratorStart where
  width : Nat
  height : Nat
  max_rooms : Nat
  room_min_size : Nat
  room_max_size : Nat
  max_monsters_per_room : Nat
  max_items_per_room : Nat

/-- `MapGeneratorStart::generate` from `create_dungeon.rs`.  The Rust
signature returns `Result`, but this strategy only ever returns `Ok`; panics
are the outer `Option`. -/
def MapGeneratorStart.generate (p : MapGeneratorStart) (rng : RNG) : Option GameMap :=
  let grid := Grid.new p.width p.height TileType.Wall
  let center := (p.width / 2, p.height / 2)
  (roomLoop p.width p.height p.room_min_size p.room_max_size p.max_rooms
    { grid := grid, rooms := [], player_position := (0, 0), rng := rng }).bind fun st =>
  (add_monsters st.grid st.rooms p.max_monsters_per_room st.rng).bind fun ms =>
  (add_items st.grid st.rooms p.max_items_per_room ms.2).bind fun its =>
  (remove_walls p.width p.height st.grid).bind fun grid2 =>
  some { grid := grid2, tile_mapping := TileMapping.new,
         player_position := st.player_position, monsters := ms.1, items := its.1,
         center := center, width := p.width, height := p.height }

/-! ## Floor reachability -/

/-- The cell `(col, row)` is in bounds and holds a Floor tile. -/
def floorB (g : Grid) (c : Nat × Nat) : Bool :=
  match g.index c with
  | some t => decide (t.tile_type = TileType.Floor)
  | none => false

/-- 4-directional adjacency of cells. -/
def adj4 (a b : Nat × Nat) : Prop :=
  (a.1 = b.1 ∧ (a.2 = b.2 + 1 ∨ b.2 = a.2 + 1)) ∨
  (a.2 = b.2 ∧ (a.1 = b.1 + 1 ∨ b.1 = a.1 + 1))

/-- One step between 4-adjacent Floor cells. -/
def floorStep (g : Grid) (a b : Nat × Nat) : Prop :=
  floorB g a = true ∧ floorB g b = true ∧ adj4 a b

/-- Reachability through a path of 4-directionally adjacent Floor cells. -/
def ReachableFloor (g : Grid) (a b : Nat × Nat) : Prop :=
  Relation.ReflTransGen (floorStep g) a b

/-! ## C3: the recorded item kind ignores the weighted draw -/

/-- Fold-preservation of a predicate through an `Option`-monadic fold. -/
theorem foldlM_option_preserves {α β : Type _} (P : β → Prop) (f : β → α → Option β)
    (hf : ∀ b a b', f b a = some b' → P b → P b') :
    ∀ (l : List α) (b : β) (out : β), l.foldlM f b = some out → P b → P out := by
  intro l
  induction l with
  | nil =>
    intro b out h hb
    simp only [List.foldlM_nil] at h
    cases h
    exact hb
  | cons a l ih =>
    intro b out h hb
    simp only [List.foldlM_cons] at h
    cases hfa : f b a with
    | none => rw [hfa] at h; cases h
    | some b1 =>
      rw [hfa] at h
      simp only [Option.bind_eq_bind, Option.some_bind] at h
      exact ih b1 out h (hf b a b1 hfa hb)

theorem addItemsStep_preserves {room : Room} {acc out : List ItemInMap × RNG}
    (h : addItemsStep room acc = some out)
    (hacc : ∀ it ∈ acc.1, it.item_type = ItemType.HealPotion) :
    ∀ it ∈ out.1, it.item_type = ItemType.HealPotion := by
  unfold addItemsStep at h
  cases hpx : acc.2.genRangeExcl (room.x1 + 1) room.x2 with
  | none => rw [hpx] at h; cases h
  | some px =>
    rw [hpx] at h
    simp only [Option.some_bind] at h
    cases hpy : px.2.genRangeExcl (room.y1 + 1) room.y2 with
    | none => rw [hpy] at h; cases h
    | some py =>
      rw [hpy] at h
      simp only [Option.some_bind] at h
      cases h
      intro it hit
      rcases List.mem_append.1 hit with hmem | hmem
      · exact hacc it hmem
      · simp only [List.mem_singleton] at hmem
        subst hmem
        rfl

theorem addItemsRoom_preserves {n : Nat} {acc out : List ItemInMap × RNG} {room : Room}
    (h : addItemsRoom n acc room = some out)
    (hacc : ∀ it ∈ acc.1, it.item_type = ItemType.HealPotion) :
    ∀ it ∈ out.1, it.item_type = ItemType.HealPotion := by
  unfold addItemsRoom at h
  cases hpc : acc.2.genRangeIncl 0 n with
  | none => rw [hpc] at h; cases h
  | some pc =>
    rw [hpc] at h
    simp only [Option.some_bind] at h
    exact foldlM_option_preserves (fun b => ∀ it ∈ b.1, it.item_type = ItemType.HealPotion)
      (fun acc2 _ => addItemsStep room acc2)
      (fun b _ b' hb hPb => addItemsStep_preserves hb hPb)
      (List.range pc.1) (acc.1, pc.2) out h hacc

/-- The stream driving the C3 run: one item is spawned, at interior position
`(1, 1)`, and the kind draw is `16777215/16777216 ≥ 0.6`, selecting
Lightning. -/
def itemSeq : Nat → Nat := fun n => if n = 0 then 1 else if n = 3 then 16777215 else 0

def itemRng : RNG := { seq := itemSeq, pos := 0 }

/-- C3: the kind recorded in the spawn list is NOT the kind selected by the
weighted draw — on the exhibited run the draw (the `gen::<f32>()` value at
stream position 3) selects Lightning, yet the recorded spawn kind is
HealPotion; moreover on every successful run every recorded kind is
HealPotion, so no random sequence ever produces a Lightning item. -/
theorem add_items_records_healpotion_only :
    (add_items (Grid.new 12 12 TileType.Wall) [Room.new 0 0 4 4] 1 itemRng =
      some ([{ position := (1, 1), item_type := ItemType.HealPotion }],
        { seq := itemSeq, pos := 4 })) ∧
    selectedItemKind (RNG.genF32 { seq := itemSeq, pos := 3 }).1 = ItemType.Lightning ∧
    ∀ grid rooms n rng out, add_items grid rooms n rng = some out →
      ∀ it ∈ out.1, it.item_type = ItemType.HealPotion := by
  refine ⟨?_, ?_, ?_⟩
  · rfl
  · show selectedItemKind ((itemSeq 3 % 16777216 : ℕ) / (16777216 : ℚ)) = ItemType.Lightning
    norm_num [itemSeq, selectedItemKind]
  · intro grid rooms n rng out h
    exact foldlM_option_preserves (fun b => ∀ it ∈ b.1, it.item_type = ItemType.HealPotion)
      (addItemsRoom n) (fun b a b' hb hPb => addItemsRoom_preserves hb hPb)
      rooms ([], rng) out h (by simp)

theorem add_items_records_healpotion_only_witness :
    ({ position := (1, 1), item_type := ItemType.HealPotion } : ItemInMap).item_type =
      ItemType.HealPotion :=
  add_items_records_healpotion_only.2.2 (Grid.new 12 12 TileType.Wall) [Room.new 0 0 4 4]
    1 itemRng
    ([{ position := (1, 1), item_type := ItemType.HealPotion }], { seq := itemSeq, pos := 4 })
    add_items_records_healpotion_only.1
    { position := (1, 1), item_type := ItemType.HealPotion } (by simp)

/-! ## C8: `remove_walls` characterization -/

theorem Grid.index_eq_of_bounds {g : Grid} {a b : Nat} (hb : b < g.nRows) (ha : a < g.nCols) :
    g.index (a, b) = some (g.cells b a) := by
  unfold Grid.index
  rw [if_pos ⟨hb, ha⟩]

theorem floorB_eq_of_bounds {g : Grid} {a b : Nat} (hb : b < g.nRows) (ha : a < g.nCols) :
    floorB g (a, b) = decide ((g.cells b a).tile_type = TileType.Floor) := by
  unfold floorB
  rw [Grid.index_eq_of_bounds hb ha]

theorem Grid.setTileType_some {g : Grid} {p : Nat × Nat} {tt : TileType}
    (h2 : p.2 < g.nRows) (h1 : p.1 < g.nCols) :
    g.setTileType p tt = some { g with cells := fun r c => if r = p.2 ∧ c = p.1 then { g.cells p.2 p.1 with tile_type := tt } else g.cells r c } := by
  unfold Grid.setTileType Grid.index
  rw [if_pos ⟨h2, h1⟩]
  simp only [Option.some_bind]
  unfold Grid.setIndex
  rw [if_pos ⟨h2, h1⟩]

/-- Reduction of one guarded neighbor check of `removeWallsCell`. -/
theorem guard_reduce {g : Grid} {cond : Prop} [Decidable cond] {a b : Nat}
    (hab : cond → b < g.nRows ∧ a < g.nCols) (keep rest : Option Grid) :
    ((if cond then (g.index (a, b)).map (fun t => decide (t.tile_type = TileType.Floor))
      else some false).bind fun v => if v then keep else rest) =
    if cond ∧ floorB g (a, b) = true then keep else rest := by
  by_cases hc : cond
  · obtain ⟨hb, ha⟩ := hab hc
    rw [if_pos hc, Grid.index_eq_of_bounds hb ha]
    simp only [Option.map_some', Option.some_bind]
    rw [floorB_eq_of_bounds hb ha]
    by_cases hf : (g.cells b a).tile_type = TileType.Floor
    · simp [hf, hc]
    · simp [hf, hc]
  · rw [if_neg hc]
    simp only [Option.some_bind]
    rw [if_neg (by simp), if_neg (fun hcc => hc hcc.1)]

/-- Cell `(x, y)` has an existing (boundary-respecting) axis-aligned neighbor
holding a Floor tile. -/
def floorNbr (g : Grid) (width height x y : Nat) : Prop :=
  (y ≠ 0 ∧ floorB g (x, y - 1) = true) ∨
  (y ≠ height - 1 ∧ floorB g (x, y + 1) = true) ∨
  (x ≠ 0 ∧ floorB g (x - 1, y) = true) ∨
  (x ≠ width - 1 ∧ floorB g (x + 1, y) = true)

instance (g : Grid) (width height x y : Nat) : Decidable (floorNbr g width height x y) := by
  unfold floorNbr
  infer_instance

/-- In-bounds characterization of the `remove_walls` loop body. -/
theorem removeWallsCell_eq {g : Grid} {width height x y : Nat}
    (hw : g.nCols = width) (hh : g.nRows = height) (hx : x < width) (hy : y < height) :
    removeWallsCell width height g x y =
      if floorNbr g width height x y then some g
      else g.setTileType (x, y) TileType.Empty := by
  unfold removeWallsCell floorNbr
  rw [guard_reduce (fun hc => ⟨by omega, by omega⟩),
      guard_reduce (fun hc => ⟨by omega, by omega⟩),
      guard_reduce (fun hc => ⟨by omega, by omega⟩),
      guard_reduce (fun hc => ⟨by omega, by omega⟩)]
  by_cases h1 : y ≠ 0 ∧ floorB g (x, y - 1) = true
  · rw [if_pos h1, if_pos (Or.inl h1)]
  · rw [if_neg h1]
    by_cases h2 : y ≠ height - 1 ∧ floorB g (x, y + 1) = true
    · rw [if_pos h2, if_pos (Or.inr (Or.inl h2))]
    · rw [if_neg h2]
      by_cases h3 : x ≠ 0 ∧ floorB g (x - 1, y) = true
      · rw [if_pos h3, if_pos (Or.inr (Or.inr (Or.inl h3)))]
      · rw [if_neg h3]
        by_cases h4 : x ≠ width - 1 ∧ floorB g (x + 1, y) = true
        · rw [if_pos h4, if_pos (Or.inr (Or.inr (Or.inr h4)))]
        · rw [if_neg h4, if_neg (by tauto)]

theorem floorB_iff_cells {g : Grid} {width height : Nat}
    (hw : g.nCols = width) (hh : g.nRows = height)
    {a b : Nat} (ha : a < width) (hb : b < height) :
    floorB g (a, b) = true ↔ (g.cells b a).tile_type = TileType.Floor := by
  rw [floorB_eq_of_bounds (by omega) (by omega), decide_eq_true_eq]

/-- Cells processed before reaching column `x`, row `y` (`x`-major order). -/
def procRW (x y a b : Nat) : Prop := a < x ∨ (a = x ∧ b < y)

/-- Invariant of the in-place `remove_walls` pass relative to the initial
grid `g0`, after the cells satisfying `P` have been processed. -/
structure RWInv (g0 : Grid) (width height : Nat) (P : Nat → Nat → Prop) (g : Grid) : Prop where
  rows_eq : g.nRows = g0.nRows
  cols_eq : g.nCols = g0.nCols
  floor_iff : ∀ a b, a < width → b < height →
    ((g.cells b a).tile_type = TileType.Floor ↔
      ((g0.cells b a).tile_type = TileType.Floor ∧ (P a b → floorNbr g0 width height a b)))
  empty_of : ∀ a b, a < width → b < height → P a b →
    ¬ floorNbr g0 width height a b → (g.cells b a).tile_type = TileType.Empty
  unproc : ∀ a b, a < width → b < height → ¬ P a b → g.cells b a = g0.cells b a
  frame : ∀ a b, a < width → b < height →
    (g.cells b a = g0.cells b a ∨
      g.cells b a = { g0.cells b a with tile_type := TileType.Empty })

theorem RWInv_congr {g0 : Grid} {width height : Nat} {P Q : Nat → Nat → Prop} {g : Grid}
    (h : RWInv g0 width height P g)
    (hpq : ∀ a b, a < width → b < height → (P a b ↔ Q a b)) :
    RWInv g0 width height Q g := by
  refine ⟨h.rows_eq, h.cols_eq, ?_, ?_, ?_, h.frame⟩
  · intro a b ha hb
    rw [h.floor_iff a b ha hb, hpq a b ha hb]
  · intro a b ha hb hq
    exact h.empty_of a b ha hb ((hpq a b ha hb).2 hq)
  · intro a b ha hb hq
    exact h.unproc a b ha hb (fun hp => hq ((hpq a b ha hb).1 hp))

theorem RWInv_init {g0 : Grid} {width height : Nat} :
    RWInv g0 width height (procRW 0 0) g0 := by
  refine ⟨rfl, rfl, ?_, ?_, ?_, ?_⟩
  · intro a b _ _
    constructor
    · intro hfl
      exact ⟨hfl, fun hp => by unfold procRW at hp; omega⟩
    · exact fun h => h.1
  · intro a b _ _ hp
    unfold procRW at hp
    omega
  · intro a b _ _ _
    rfl
  · intro a b _ _
    exact Or.inl rfl

/-- Invariant preservation by one `remove_walls` cell visit. -/
theorem removeWallsCell_step {g0 g : Grid} {width height x y : Nat}
    (hw : g0.nCols = width) (hh : g0.nRows = height)
    (hx : x < width) (hy : y < height)
    (inv : RWInv g0 width height (procRW x y) g) :
    ∃ g', removeWallsCell width height g x y = some g' ∧
      RWInv g0 width height (procRW x (y + 1)) g' := by
  have hgw : g.nCols = width := inv.cols_eq.trans hw
  have hgh : g.nRows = height := inv.rows_eq.trans hh
  have hnotP : ¬ procRW x y x y := by unfold procRW; omega
  have hcell_eq : g.cells y x = g0.cells y x := inv.unproc x y hx hy hnotP
  have hfb : ∀ a b, a < width → b < height →
      (floorB g (a, b) = true ↔
        ((g0.cells b a).tile_type = TileType.Floor ∧
          (procRW x y a b → floorNbr g0 width height a b))) := by
    intro a b ha hb
    rw [floorB_iff_cells hgw hgh ha hb]
    exact inv.floor_iff a b ha hb
  have hPiff : ∀ a b, ¬ (a = x ∧ b = y) → (procRW x y a b ↔ procRW x (y + 1) a b) := by
    intro a b hne
    unfold procRW
    omega
  rw [removeWallsCell_eq hgw hgh hx hy]
  by_cases hC : floorNbr g width height x y
  · -- an existing neighbor is Floor right now: the cell is kept
    have hNb0 : floorNbr g0 width height x y := by
      rcases hC with ⟨hg, hf⟩ | ⟨hg, hf⟩ | ⟨hg, hf⟩ | ⟨hg, hf⟩
      · exact Or.inl ⟨hg, (floorB_iff_cells hw hh hx (by omega)).2
          ((hfb x (y - 1) hx (by omega)).1 hf).1⟩
      · exact Or.inr (Or.inl ⟨hg, (floorB_iff_cells hw hh hx (by omega)).2
          ((hfb x (y + 1) hx (by omega)).1 hf).1⟩)
      · exact Or.inr (Or.inr (Or.inl ⟨hg, (floorB_iff_cells hw hh (by omega) hy).2
          ((hfb (x - 1) y (by omega) hy).1 hf).1⟩))
      · exact Or.inr (Or.inr (Or.inr ⟨hg, (floorB_iff_cells hw hh (by omega) hy).2
          ((hfb (x + 1) y (by omega) hy).1 hf).1⟩))
    refine ⟨g, by rw [if_pos hC], inv.rows_eq, inv.cols_eq, ?_, ?_, ?_, inv.frame⟩
    · intro a b ha hb
      by_cases hab : a = x ∧ b = y
      · obtain ⟨rfl, rfl⟩ := hab
        rw [hcell_eq]
        exact ⟨fun hfl => ⟨hfl, fun _ => hNb0⟩, fun h => h.1⟩
      · rw [inv.floor_iff a b ha hb, hPiff a b hab]
    · intro a b ha hb hp hnb
      by_cases hab : a = x ∧ b = y
      · obtain ⟨rfl, rfl⟩ := hab
        exact absurd hNb0 hnb
      · exact inv.empty_of a b ha hb ((hPiff a b hab).2 hp) hnb
    · intro a b ha hb hp
      have hab : ¬ (a = x ∧ b = y) := by
        intro hc
        obtain ⟨rfl, rfl⟩ := hc
        apply hp
        unfold procRW
        omega
      exact inv.unproc a b ha hb (fun hq => hp ((hPiff a b hab).1 hq))
  · -- no existing neighbor is Floor right now: the cell is set to Empty
    have hnotRHS : ¬ ((g0.cells y x).tile_type = TileType.Floor ∧
        floorNbr g0 width height x y) := by
      rintro ⟨hfl0, hnb0⟩
      apply hC
      rcases hnb0 with ⟨hg, hf⟩ | ⟨hg, hf⟩ | ⟨hg, hf⟩ | ⟨hg, hf⟩
      · refine Or.inl ⟨hg, ?_⟩
        rw [hfb x (y - 1) hx (by omega)]
        refine ⟨(floorB_iff_cells hw hh hx (by omega)).1 hf, fun _ => ?_⟩
        refine Or.inr (Or.inl ⟨by omega, ?_⟩)
        have hyy : y - 1 + 1 = y := by omega
        rw [hyy]
        exact (floorB_iff_cells hw hh hx hy).2 hfl0
      · refine Or.inr (Or.inl ⟨hg, ?_⟩)
        rw [hfb x (y + 1) hx (by omega)]
        refine ⟨(floorB_iff_cells hw hh hx (by omega)).1 hf, fun _ => ?_⟩
        refine Or.inl ⟨by omega, ?_⟩
        have hyy : y + 1 - 1 = y := by omega
        rw [hyy]
        exact (floorB_iff_cells hw hh hx hy).2 hfl0
      · refine Or.inr (Or.inr (Or.inl ⟨hg, ?_⟩))
        rw [hfb (x - 1) y (by omega) hy]
        refine ⟨(floorB_iff_cells hw hh (by omega) hy).1 hf, fun _ => ?_⟩
        refine Or.inr (Or.inr (Or.inr ⟨by omega, ?_⟩))
        have hxx : x - 1 + 1 = x := by omega
        rw [hxx]
        exact (floorB_iff_cells hw hh hx hy).2 hfl0
      · refine Or.inr (Or.inr (Or.inr ⟨hg, ?_⟩))
        rw [hfb (x + 1) y (by omega) hy]
        refine ⟨(floorB_iff_cells hw hh (by omega) hy).1 hf, fun _ => ?_⟩
        refine Or.inr (Or.inr (Or.inl ⟨by omega, ?_⟩))
        have hxx : x + 1 - 1 = x := by omega
        rw [hxx]
        exact (floorB_iff_cells hw hh hx hy).2 hfl0
    have hset := @Grid.setTileType_some g (x, y) TileType.Empty
      (by omega) (by omega)
    refine ⟨{ g with cells := fun r c => if r = y ∧ c = x then { g.cells y x with tile_type := TileType.Empty } else g.cells r c },
      by rw [if_neg hC]; exact hset, inv.rows_eq, inv.cols_eq, ?_, ?_, ?_, ?_⟩
    · intro a b ha hb
      show (if b = y ∧ a = x then { g.cells y x with tile_type := TileType.Empty }
        else g.cells b a).tile_type = TileType.Floor ↔ _
      by_cases hab : b = y ∧ a = x
      · obtain ⟨rfl, rfl⟩ := hab
        rw [if_pos ⟨rfl, rfl⟩]
        constructor
        · intro hfl
          have hfl' : TileType.Empty = TileType.Floor := hfl
          cases hfl'
        · intro hrhs
          exact absurd ⟨hrhs.1, hrhs.2 (by unfold procRW; omega)⟩ hnotRHS
      · rw [if_neg hab, inv.floor_iff a b ha hb,
          hPiff a b (fun hc => hab ⟨hc.2, hc.1⟩)]
    · intro a b ha hb hp hnb
      show (if b = y ∧ a = x then { g.cells y x with tile_type := TileType.Empty }
        else g.cells b a).tile_type = TileType.Empty
      by_cases hab : b = y ∧ a = x
      · obtain ⟨rfl, rfl⟩ := hab
        rw [if_pos ⟨rfl, rfl⟩]
      · rw [if_neg hab]
        exact inv.empty_of a b ha hb
          ((hPiff a b (fun hc => hab ⟨hc.2, hc.1⟩)).2 hp) hnb
    · intro a b ha hb hp
      show (if b = y ∧ a = x then { g.cells y x with tile_type := TileType.Empty }
        else g.cells b a) = g0.cells b a
      have hab : ¬ (b = y ∧ a = x) := by
        intro hc
        obtain ⟨rfl, rfl⟩ := hc
        apply hp
        unfold procRW
        omega
      rw [if_neg hab]
      exact inv.unproc a b ha hb
        (fun hq => hp ((hPiff a b (fun hc => hab ⟨hc.2, hc.1⟩)).1 hq))
    · intro a b ha hb
      by_cases hab : b = y ∧ a = x
      · obtain ⟨rfl, rfl⟩ := hab
        refine Or.inr ?_
        show (if b = b ∧ a = a then { g.cells b a with tile_type := TileType.Empty }
          else g.cells b a) = { g0.cells b a with tile_type := TileType.Empty }
        rw [if_pos ⟨rfl, rfl⟩, hcell_eq]
      · show (if b = y ∧ a = x then { g.cells y x with tile_type := TileType.Empty }
          else g.cells b a) = g0.cells b a ∨
          (if b = y ∧ a = x then { g.cells y x with tile_type := TileType.Empty }
          else g.cells b a) = { g0.cells b a with tile_type := TileType.Empty }
        rw [if_neg hab]
        exact inv.frame a b ha hb

theorem removeWalls_inner {g0 : Grid} {width height x : Nat}
    (hw : g0.nCols = width) (hh : g0.nRows = height) (hx : x < width) :
    ∀ j : Nat, j ≤ height → ∀ g, RWInv g0 width height (procRW x 0) g →
    ∃ g', (List.range j).foldlM (fun g y => removeWallsCell width height g x y) g = some g' ∧
      RWInv g0 width height (procRW x j) g' := by
  intro j
  induction j with
  | zero =>
    intro _ g inv
    exact ⟨g, rfl, inv⟩
  | succ j ih =>
    intro hj g inv
    obtain ⟨g1, hg1, inv1⟩ := ih (by omega) g inv
    obtain ⟨g2, hg2, inv2⟩ := removeWallsCell_step hw hh hx (by omega : j < height) inv1
    refine ⟨g2, ?_, inv2⟩
    rw [List.range_succ, List.foldlM_append, hg1]
    simp only [Option.bind_eq_bind, Option.some_bind, List.foldlM_cons, List.foldlM_nil, hg2]
    rfl

theorem removeWalls_outer {g0 : Grid} {width height : Nat}
    (hw : g0.nCols = width) (hh : g0.nRows = height) :
    ∀ i : Nat, i ≤ width → ∀ g, RWInv g0 width height (procRW 0 0) g →
    ∃ g', (List.range i).foldlM (fun g x =>
        (List.range height).foldlM (fun g y => removeWallsCell width height g x y) g) g
        = some g' ∧
      RWInv g0 width height (procRW i 0) g' := by
  intro i
  induction i with
  | zero =>
    intro _ g inv
    exact ⟨g, rfl, inv⟩
  | succ i ih =>
    intro hi g inv
    obtain ⟨g1, hg1, inv1⟩ := ih (by omega) g inv
    obtain ⟨g2, hg2, inv2⟩ := removeWalls_inner hw hh (by omega : i < width) height
      (le_refl height) g1 (RWInv_congr inv1 (by intro a b _ _; unfold procRW; omega))
    refine ⟨g2, ?_, ?_⟩
    · rw [List.range_succ, List.foldlM_append, hg1]
      simp only [Option.bind_eq_bind, Option.some_bind, List.foldlM_cons, List.foldlM_nil, hg2]
      rfl
    · exact RWInv_congr inv2 (by intro a b ha hb; unfold procRW; omega)

/-- C8 (amended): the wall-pruning pass never examines the kind of the cell
it visits — it demotes any cell (Wall, Floor, StaircaseDown or Empty) to
Empty whenever no existing axis-aligned neighbor holds a Floor tile at visit
time.  Order-independent consequences, proved here for every grid whose
dimensions match the passed `width`/`height`: (1) a cell keeps Floor exactly
when it was Floor and some existing neighbor was initially Floor (so Floor
cells are NOT always preserved — isolated ones are demoted); (2) a cell none
of whose existing neighbors was initially Floor ends up Empty (the Wall
clause of the original claim, extended to all kinds); (3) every cell is
either untouched or has exactly its kind set to Empty. -/
theorem remove_walls_spec (g0 : Grid) (width height : Nat)
    (hw : g0.nCols = width) (hh : g0.nRows = height) :
    ∃ g', remove_walls width height g0 = some g' ∧
      g'.nRows = g0.nRows ∧ g'.nCols = g0.nCols ∧
      ∀ x y, x < width → y < height →
        (((g'.cells y x).tile_type = TileType.Floor ↔
          ((g0.cells y x).tile_type = TileType.Floor ∧ floorNbr g0 width height x y)) ∧
        (¬ floorNbr g0 width height x y → (g'.cells y x).tile_type = TileType.Empty) ∧
        (g'.cells y x = g0.cells y x ∨
          g'.cells y x = { g0.cells y x with tile_type := TileType.Empty })) := by
  obtain ⟨g', hg', inv⟩ := removeWalls_outer hw hh width (le_refl width) g0 RWInv_init
  refine ⟨g', hg', inv.rows_eq, inv.cols_eq, ?_⟩
  intro x y hx hy
  have hPx : procRW width 0 x y := by unfold procRW; omega
  refine ⟨?_, ?_, inv.frame x y hx hy⟩
  · rw [inv.floor_iff x y hx hy]
    constructor
    · intro h
      exact ⟨h.1, h.2 hPx⟩
    · intro h
      exact ⟨h.1, fun _ => h.2⟩
  · intro hnb
    exact inv.empty_of x y hx hy hPx hnb

theorem remove_walls_spec_witness :
    ∃ g', remove_walls 2 1 (Grid.new 2 1 TileType.Floor) = some g' ∧
      g'.nRows = (Grid.new 2 1 TileType.Floor).nRows ∧
      g'.nCols = (Grid.new 2 1 TileType.Floor).nCols ∧
      ∀ x y, x < 2 → y < 1 →
        (((g'.cells y x).tile_type = TileType.Floor ↔
          (((Grid.new 2 1 TileType.Floor).cells y x).tile_type = TileType.Floor ∧
            floorNbr (Grid.new 2 1 TileType.Floor) 2 1 x y)) ∧
        (¬ floorNbr (Grid.new 2 1 TileType.Floor) 2 1 x y →
          (g'.cells y x).tile_type = TileType.Empty) ∧
        (g'.cells y x = (Grid.new 2 1 TileType.Floor).cells y x ∨
          g'.cells y x = { (Grid.new 2 1 TileType.Floor).cells y x with
            tile_type := TileType.Empty })) :=
  remove_walls_spec (Grid.new 2 1 TileType.Floor) 2 1 rfl rfl

/-- The fixture refuting claim C8 as stated: a 2×1 grid whose left cell is
Floor and right cell is Wall. -/
def rwCounterGrid : Grid :=
  { nRows := 1, nCols := 2,
    cells := fun _ c => if c = 0 then Tile.new TileType.Floor else Tile.new TileType.Wall }

/-- Counterexample for claim C8 as stated: running `remove_walls` on the 2×1
grid `[Floor, Wall]` empties BOTH cells — the Floor cell (whose only
neighbor is a Wall) is demoted, contradicting "every cell whose kind is
Floor ... has the same kind after the pass", and the Wall cell is demoted
although one of its existing neighbors was a Floor cell before the pass,
contradicting the "exactly when" clause. -/
theorem remove_walls_counterexample :
    (remove_walls 2 1 rwCounterGrid).map
      (fun g => ((g.cells 0 0).tile_type, (g.cells 0 1).tile_type)) =
      some (TileType.Empty, TileType.Empty) := by
  rfl

/-! ## Reachability toolkit for C7 -/

theorem adj4_symm {a b : Nat × Nat} (h : adj4 a b) : adj4 b a := by
  unfold adj4 at *
  tauto

theorem floorStep_symm (g : Grid) : Symmetric (floorStep g) := by
  intro a b ⟨ha, hb, hadj⟩
  exact ⟨hb, ha, adj4_symm hadj⟩

theorem reach_symm {g : Grid} {a b : Nat × Nat} (h : ReachableFloor g a b) :
    ReachableFloor g b a :=
  (Relation.ReflTransGen.symmetric (floorStep_symm g)) h

theorem reach_trans {g : Grid} {a b c : Nat × Nat}
    (h1 : ReachableFloor g a b) (h2 : ReachableFloor g b c) : ReachableFloor g a c :=
  Relation.ReflTransGen.trans h1 h2

theorem reach_mono {g g' : Grid} (hmono : ∀ c, floorB g c = true → floorB g' c = true)
    {a b : Nat × Nat} (h : ReachableFloor g a b) : ReachableFloor g' a b := by
  induction h with
  | refl => exact Relation.ReflTransGen.refl
  | tail _ hstep ih =>
    exact Relation.ReflTransGen.tail ih
      ⟨hmono _ hstep.1, hmono _ hstep.2.1, hstep.2.2⟩

/-- Every two members of a 4-connected chain of Floor cells are mutually
reachable. -/
theorem reach_of_chain (g : Grid) : ∀ l : List (Nat × Nat),
    List.Chain' adj4 l → (∀ p ∈ l, floorB g p = true) →
    ∀ p ∈ l, ∀ q ∈ l, ReachableFloor g p q := by
  intro l
  induction l with
  | nil => intro _ _ p hp; cases hp
  | cons a l ih =>
    intro hchain hfl p hp q hq
    cases l with
    | nil =>
      simp only [List.mem_singleton] at hp hq
      subst hp; subst hq
      exact Relation.ReflTransGen.refl
    | cons b l' =>
      have hstep : ReachableFloor g a b := by
        refine Relation.ReflTransGen.single ⟨hfl a (by simp), hfl b (by simp), ?_⟩
        exact (List.chain'_cons.1 hchain).1
      have htail := ih (List.chain'_cons.1 hchain).2 (fun p hp => hfl p (by simp [hp]))
      rcases List.mem_cons.1 hp with rfl | hp' <;> rcases List.mem_cons.1 hq with rfl | hq'
      · exact Relation.ReflTransGen.refl
      · exact reach_trans hstep (htail b (by simp) q hq')
      · exact reach_symm (reach_trans hstep (htail b (by simp) p hp'))
      · exact htail p hp' q hq'

theorem reach_horiz (g : Grid) (y xlo : Nat) : ∀ xhi : Nat, xlo ≤ xhi →
    (∀ x, xlo ≤ x → x ≤ xhi → floorB g (x, y) = true) →
    ReachableFloor g (xlo, y) (xhi, y) := by
  intro xhi
  induction xhi with
  | zero =>
    intro hle _
    have : xlo = 0 := by omega
    subst this
    exact Relation.ReflTransGen.refl
  | succ n ih =>
    intro hle hfl
    rcases Nat.lt_or_ge xlo (n + 1) with hlt | hge
    · refine Relation.ReflTransGen.tail (ih (by omega) (fun x h1 h2 => hfl x h1 (by omega))) ?_
      refine ⟨hfl n (by omega) (by omega), hfl (n + 1) (by omega) (by omega), ?_⟩
      unfold adj4
      right
      exact ⟨rfl, Or.inr rfl⟩
    · have : xlo = n + 1 := by omega
      subst this
      exact Relation.ReflTransGen.refl

theorem reach_vert (g : Grid) (x ylo : Nat) : ∀ yhi : Nat, ylo ≤ yhi →
    (∀ y, ylo ≤ y → y ≤ yhi → floorB g (x, y) = true) →
    ReachableFloor g (x, ylo) (x, yhi) := by
  intro yhi
  induction yhi with
  | zero =>
    intro hle _
    have : ylo = 0 := by omega
    subst this
    exact Relation.ReflTransGen.refl
  | succ n ih =>
    intro hle hfl
    rcases Nat.lt_or_ge ylo (n + 1) with hlt | hge
    · refine Relation.ReflTransGen.tail (ih (by omega) (fun y h1 h2 => hfl y h1 (by omega))) ?_
      refine ⟨hfl n (by omega) (by omega), hfl (n + 1) (by omega) (by omega), ?_⟩
      unfold adj4
      left
      exact ⟨rfl, Or.inr rfl⟩
    · have : ylo = n + 1 := by omega
      subst this
      exact Relation.ReflTransGen.refl

/-- Any two cells of a fully-Floor rectangle are mutually reachable. -/
theorem reach_rect (g : Grid) (xlo xhi ylo yhi : Nat)
    (hfl : ∀ x y, xlo ≤ x → x < xhi → ylo ≤ y → y < yhi → floorB g (x, y) = true)
    {p q : Nat × Nat}
    (hp : xlo ≤ p.1 ∧ p.1 < xhi ∧ ylo ≤ p.2 ∧ p.2 < yhi)
    (hq : xlo ≤ q.1 ∧ q.1 < xhi ∧ ylo ≤ q.2 ∧ q.2 < yhi) :
    ReachableFloor g p q := by
  obtain ⟨hp1, hp2, hp3, hp4⟩ := hp
  obtain ⟨hq1, hq2, hq3, hq4⟩ := hq
  have h1 : ReachableFloor g (p.1, p.2) (q.1, p.2) := by
    rcases Nat.le_total p.1 q.1 with hle | hle
    · exact reach_horiz g p.2 p.1 q.1 hle (fun x ha hb => hfl x p.2 (by omega) (by omega) hp3 hp4)
    · exact reach_symm (reach_horiz g p.2 q.1 p.1 hle
        (fun x ha hb => hfl x p.2 (by omega) (by omega) hp3 hp4))
  have h2 : ReachableFloor g (q.1, p.2) (q.1, q.2) := by
    rcases Nat.le_total p.2 q.2 with hle | hle
    · exact reach_vert g q.1 p.2 q.2 hle (fun y ha hb => hfl q.1 y hq1 hq2 (by omega) (by omega))
    · exact reach_symm (reach_vert g q.1 q.2 p.2 hle
        (fun y ha hb => hfl q.1 y hq1 hq2 (by omega) (by omega)))
  exact reach_trans h1 h2

/-! ## Floor-write effect lemmas -/

theorem floorB_bounds {g : Grid} {c : Nat × Nat} (h : floorB g c = true) :
    c.2 < g.nRows ∧ c.1 < g.nCols := by
  unfold floorB Grid.index at h
  by_cases hb : c.2 < g.nRows ∧ c.1 < g.nCols
  · exact hb
  · rw [if_neg hb] at h
    cases h

theorem floorB_eq {g : Grid} {c : Nat × Nat} (hb : c.2 < g.nRows) (ha : c.1 < g.nCols) :
    floorB g c = decide ((g.cells c.2 c.1).tile_type = TileType.Floor) := by
  unfold floorB
  rw [show g.index c = some (g.cells c.2 c.1) from by unfold Grid.index; rw [if_pos ⟨hb, ha⟩]]

theorem setTileType_floor_spec {g g' : Grid} {p : Nat × Nat}
    (h : g.setTileType p TileType.Floor = some g') :
    g'.nRows = g.nRows ∧ g'.nCols = g.nCols ∧
    (∀ c, floorB g c = true → floorB g' c = true) ∧
    floorB g' p = true ∧
    (∀ c, floorB g' c = true → floorB g c = true ∨ c = p) := by
  have hbp : p.2 < g.nRows ∧ p.1 < g.nCols := by
    by_contra hc
    unfold Grid.setTileType Grid.index at h
    rw [if_neg hc] at h
    cases h
  obtain ⟨hp2, hp1⟩ := hbp
  rw [Grid.setTileType_some hp2 hp1] at h
  have hg' := (Option.some.inj h).symm
  subst hg'
  refine ⟨rfl, rfl, ?_, ?_, ?_⟩
  · intro c hc
    obtain ⟨hc2, hc1⟩ := floorB_bounds hc
    rw [floorB_eq hc2 hc1] at hc
    rw [floorB_eq (by exact hc2) (by exact hc1)]
    show decide ((if c.2 = p.2 ∧ c.1 = p.1 then _ else g.cells c.2 c.1).tile_type = _) = true
    by_cases hcp : c.2 = p.2 ∧ c.1 = p.1
    · rw [if_pos hcp]
      exact decide_eq_true rfl
    · rw [if_neg hcp]
      exact hc
  · rw [floorB_eq (by exact hp2) (by exact hp1)]
    show decide ((if p.2 = p.2 ∧ p.1 = p.1 then _ else g.cells p.2 p.1).tile_type = _) = true
    rw [if_pos ⟨rfl, rfl⟩]
    exact decide_eq_true rfl
  · intro c hc
    obtain ⟨hc2, hc1⟩ := floorB_bounds hc
    rw [floorB_eq hc2 hc1] at hc
    by_cases hcp : c.2 = p.2 ∧ c.1 = p.1
    · right
      obtain ⟨h2, h1⟩ := hcp
      exact Prod.ext h1 h2
    · left
      rw [floorB_eq (by exact hc2) (by exact hc1)]
      rw [show (({ g with cells := fun r c => if r = p.2 ∧ c = p.1 then { g.cells p.2 p.1 with tile_type := TileType.Floor } else g.cells r c } : Grid).cells c.2 c.1) = g.cells c.2 c.1 from by
        show (if c.2 = p.2 ∧ c.1 = p.1 then _ else _) = _
        rw [if_neg hcp]] at hc
      exact hc

/-- General effect of an `Option`-monadic fold of Floor-producing writes. -/
theorem floorFoldSet_spec {α : Type _} (step : Grid → α → Option Grid)
    (T : α → Nat × Nat → Prop)
    (hstep : ∀ g a g', step g a = some g' →
      g'.nRows = g.nRows ∧ g'.nCols = g.nCols ∧
      (∀ c, floorB g c = true → floorB g' c = true) ∧
      (∀ c, T a c → floorB g' c = true) ∧
      (∀ c, floorB g' c = true → floorB g c = true ∨ T a c)) :
    ∀ (ps : List α) (g g' : Grid), ps.foldlM step g = some g' →
      g'.nRows = g.nRows ∧ g'.nCols = g.nCols ∧
      (∀ c, floorB g c = true → floorB g' c = true) ∧
      (∀ a ∈ ps, ∀ c, T a c → floorB g' c = true) ∧
      (∀ c, floorB g' c = true → floorB g c = true ∨ ∃ a ∈ ps, T a c) := by
  intro ps
  induction ps with
  | nil =>
    intro g g' h
    simp only [List.foldlM_nil] at h
    cases h
    exact ⟨rfl, rfl, fun _ hc => hc, fun a ha => absurd ha (by simp),
      fun c hc => Or.inl hc⟩
  | cons a ps ih =>
    intro g g' h
    simp only [List.foldlM_cons] at h
    cases hfa : step g a with
    | none => rw [hfa] at h; cases h
    | some g1 =>
      rw [hfa] at h
      simp only [Option.bind_eq_bind, Option.some_bind] at h
      obtain ⟨hr1, hc1, hm1, ht1, hrev1⟩ := hstep g a g1 hfa
      obtain ⟨hr2, hc2, hm2, ht2, hrev2⟩ := ih g1 g' h
      refine ⟨hr2.trans hr1, hc2.trans hc1, fun c hc => hm2 c (hm1 c hc), ?_, ?_⟩
      · intro b hb c hTc
        rcases List.mem_cons.1 hb with rfl | hb'
        · exact hm2 c (ht1 c hTc)
        · exact ht2 b hb' c hTc
      · intro c hc
        rcases hrev2 c hc with hc1' | ⟨b, hb, hT⟩
        · rcases hrev1 c hc1' with hcg | hT
          · exact Or.inl hcg
          · exact Or.inr ⟨a, by simp, hT⟩
        · exact Or.inr ⟨b, by simp [hb], hT⟩

theorem mem_rangeList {a b z : Nat} : z ∈ rangeList a b ↔ a ≤ z ∧ z < b := by
  unfold rangeList
  simp only [List.mem_map, List.mem_range]
  constructor
  · rintro ⟨i, hi, rfl⟩
    omega
  · intro ⟨h1, h2⟩
    exact ⟨z - a, by omega, by omega⟩

/-- Effect of `Room::fill_grid`: floors grow by exactly the open interior of
the room. -/
theorem fill_grid_spec {room : Room} {g g' : Grid} (h : room.fill_grid g = some g') :
    g'.nRows = g.nRows ∧ g'.nCols = g.nCols ∧
    (∀ c, floorB g c = true → floorB g' c = true) ∧
    (∀ c : Nat × Nat, room.x1 + 1 ≤ c.1 → c.1 < room.x2 → room.y1 + 1 ≤ c.2 →
      c.2 < room.y2 → floorB g' c = true) ∧
    (∀ c, floorB g' c = true → floorB g c = true ∨
      (room.x1 + 1 ≤ c.1 ∧ c.1 < room.x2 ∧ room.y1 + 1 ≤ c.2 ∧ c.2 < room.y2)) := by
  have hinner : ∀ (x : Nat) (g1 g2 : Grid),
      (rangeList (room.y1 + 1) room.y2).foldlM
        (fun g y => g.setTileType (x, y) TileType.Floor) g1 = some g2 →
      g2.nRows = g1.nRows ∧ g2.nCols = g1.nCols ∧
      (∀ c, floorB g1 c = true → floorB g2 c = true) ∧
      (∀ y ∈ rangeList (room.y1 + 1) room.y2, ∀ c : Nat × Nat, c = (x, y) →
        floorB g2 c = true) ∧
      (∀ c, floorB g2 c = true → floorB g1 c = true ∨
        ∃ y ∈ rangeList (room.y1 + 1) room.y2, c = (x, y)) := by
    intro x
    exact floorFoldSet_spec (fun g y => g.setTileType (x, y) TileType.Floor)
      (fun y c => c = (x, y))
      (fun g y g' hg => by
        obtain ⟨h1, h2, h3, h4, h5⟩ := setTileType_floor_spec hg
        exact ⟨h1, h2, h3, fun c hc => hc ▸ h4, h5⟩)
      (rangeList (room.y1 + 1) room.y2)
  have houter := floorFoldSet_spec
    (fun g x => (rangeList (room.y1 + 1) room.y2).foldlM
      (fun g y => g.setTileType (x, y) TileType.Floor) g)
    (fun x c => ∃ y ∈ rangeList (room.y1 + 1) room.y2, c = (x, y))
    (fun g x g' hg => by
      obtain ⟨h1, h2, h3, h4, h5⟩ := hinner x g g' hg
      exact ⟨h1, h2, h3, fun c hc => by
        obtain ⟨y, hy, rfl⟩ := hc
        exact h4 y hy _ rfl, h5⟩)
    (rangeList (room.x1 + 1) room.x2) g g' h
  obtain ⟨h1, h2, h3, h4, h5⟩ := houter
  refine ⟨h1, h2, h3, ?_, ?_⟩
  · intro c hx1 hx2 hy1 hy2
    exact h4 c.1 (mem_rangeList.2 ⟨hx1, hx2⟩) c ⟨c.2, mem_rangeList.2 ⟨hy1, hy2⟩, rfl⟩
  · intro c hc
    rcases h5 c hc with hold | ⟨x, hx, y, hy, rfl⟩
    · exact Or.inl hold
    · rw [mem_rangeList] at hx hy
      exact Or.inr ⟨hx.1, hx.2, hy.1, hy.2⟩

/-- Nat-cell image of an integer point (`as usize` after the nonnegativity
established by the tunnel legs). -/
def toCell (p : Int × Int) : Nat × Nat := (p.1.toNat, p.2.toNat)

theorem carvePoint_spec {g g' : Grid} {p : Int × Int} (h : carvePoint g p = some g') :
    g'.nRows = g.nRows ∧ g'.nCols = g.nCols ∧
    (∀ c, floorB g c = true → floorB g' c = true) ∧
    (∀ c, c = toCell p → floorB g' c = true) ∧
    (∀ c, floorB g' c = true → floorB g c = true ∨ c = toCell p) := by
  unfold carvePoint at h
  split at h
  · obtain ⟨h1, h2, h3, h4, h5⟩ := setTileType_floor_spec h
    exact ⟨h1, h2, h3, fun c hc => hc ▸ h4, h5⟩
  · cases h

theorem carveLine_spec {g g' : Grid} {pts : List (Int × Int)}
    (h : carveLine g pts = some g') :
    g'.nRows = g.nRows ∧ g'.nCols = g.nCols ∧
    (∀ c, floorB g c = true → floorB g' c = true) ∧
    (∀ p ∈ pts, floorB g' (toCell p) = true) ∧
    (∀ c, floorB g' c = true → floorB g c = true ∨ ∃ p ∈ pts, c = toCell p) := by
  obtain ⟨h1, h2, h3, h4, h5⟩ := floorFoldSet_spec carvePoint (fun p c => c = toCell p)
    (fun g p g' hg => carvePoint_spec hg) pts g g' h
  exact ⟨h1, h2, h3, fun p hp => h4 p hp _ rfl, h5⟩

/-- For axis-aligned lines in diagonal mode, the point sequence is a
unit-step 4-connected chain staying between the endpoints. -/
theorem bresenhamPoints_axis_spec (x0 y0 x1 y1 : Int) (haxis : x0 = x1 ∨ y0 = y1) :
    (bresenhamPoints x0 y0 x1 y1 true).head? = some (x0, y0) ∧
    (bresenhamPoints x0 y0 x1 y1 true).getLast? = some (x1, y1) ∧
    List.Chain' stepAdj (bresenhamPoints x0 y0 x1 y1 true) ∧
    ∀ p ∈ bresenhamPoints x0 y0 x1 y1 true,
      min x0 x1 ≤ p.1 ∧ p.1 ≤ max x0 x1 ∧ min y0 y1 ≤ p.2 ∧ p.2 ≤ max y0 y1 := by
  obtain ⟨hh, hl, hc, hb⟩ := bres_run_spec ((x1 - x0).natAbs + (y1 - y0).natAbs + 1)
    (BresenhamLine.new x0 y0 x1 y1 true) (x1 - x0).natAbs (y1 - y0).natAbs
    (bresInv_new x0 y0 x1 y1 true) (by omega)
  refine ⟨hh, hl, hc ?_, ?_⟩
  · rcases haxis with h | h
    · right; left
      show |x1 - x0| = 0
      rw [h]
      simp
    · right; right
      show -|y1 - y0| = 0
      rw [h]
      simp
  · intro p hp
    obtain ⟨h1, h2, h3, h4⟩ := hb p hp
    have h1' : |x1 - p.1| ≤ |x1 - x0| := h1
    have h2' : |y1 - p.2| ≤ - -|y1 - y0| := h2
    have h3' : 0 ≤ (x1 - p.1) * (if x0 < x1 then (1 : Int) else -1) := h3
    have h4' : 0 ≤ (y1 - p.2) * (if y0 < y1 then (1 : Int) else -1) := h4
    rw [neg_neg] at h2'
    rw [Int.abs_eq_natAbs, Int.abs_eq_natAbs] at h1' h2'
    constructor
    · rcases lt_or_ge x0 x1 with hcmp | hcmp
      · rw [if_pos hcmp] at h3'
        simp only [mul_one] at h3'
        omega
      · rw [if_neg (by omega)] at h3'
        simp only [mul_neg_one] at h3'
        omega
    refine ⟨?_, ?_, ?_⟩
    · rcases lt_or_ge x0 x1 with hcmp | hcmp
      · rw [if_pos hcmp] at h3'
        simp only [mul_one] at h3'
        omega
      · rw [if_neg (by omega)] at h3'
        simp only [mul_neg_one] at h3'
        omega
    · rcases lt_or_ge y0 y1 with hcmp | hcmp
      · rw [if_pos hcmp] at h4'
        simp only [mul_one] at h4'
        omega
      · rw [if_neg (by omega)] at h4'
        simp only [mul_neg_one] at h4'
        omega
    · rcases lt_or_ge y0 y1 with hcmp | hcmp
      · rw [if_pos hcmp] at h4'
        simp only [mul_one] at h4'
        omega
      · rw [if_neg (by omega)] at h4'
        simp only [mul_neg_one] at h4'
        omega

theorem stepAdj_toCell {p q : Int × Int} (h : stepAdj p q) (hp : 0 ≤ p.1 ∧ 0 ≤ p.2)
    (hq : 0 ≤ q.1 ∧ 0 ≤ q.2) : adj4 (toCell p) (toCell q) := by
  unfold stepAdj at h
  show (p.1.toNat = q.1.toNat ∧ (p.2.toNat = q.2.toNat + 1 ∨ q.2.toNat = p.2.toNat + 1)) ∨
    (p.2.toNat = q.2.toNat ∧ (p.1.toNat = q.1.toNat + 1 ∨ q.1.toNat = p.1.toNat + 1))
  rcases h with ⟨h1, h2⟩ | ⟨h1, h2⟩
  · rw [Int.abs_eq_natAbs] at h1
    omega
  · rw [Int.abs_eq_natAbs] at h2
    omega

theorem chain_toCell : ∀ {pts : List (Int × Int)}, List.Chain' stepAdj pts →
    (∀ p ∈ pts, 0 ≤ p.1 ∧ 0 ≤ p.2) → List.Chain' adj4 (pts.map toCell) := by
  intro pts
  induction pts with
  | nil => intro _ _; simp
  | cons a l ih =>
    intro hchain hpos
    cases l with
    | nil => simp
    | cons b l' =>
      rw [List.map_cons, List.map_cons]
      refine List.chain'_cons.2 ⟨?_, ?_⟩
      · exact stepAdj_toCell (List.chain'_cons.1 hchain).1 (hpos a (by simp))
          (hpos b (by simp))
      · rw [← List.map_cons]
        exact ih (List.chain'_cons.1 hchain).2 (fun p hp => hpos p (by simp [hp]))

/-- Carving the two axis-aligned legs of a tunnel connects `cs` to `co` and
every newly carved cell to `cs`. -/
theorem tunnel_legs_spec {g g1 g2 : Grid} (cs co corner : Nat × Nat)
    (haxis1 : ((cs.1 : Int) = (corner.1 : Int)) ∨ ((cs.2 : Int) = (corner.2 : Int)))
    (haxis2 : ((corner.1 : Int) = (co.1 : Int)) ∨ ((corner.2 : Int) = (co.2 : Int)))
    (h1 : carveLine g (bresenhamPoints cs.1 cs.2 corner.1 corner.2 true) = some g1)
    (h2 : carveLine g1 (bresenhamPoints corner.1 corner.2 co.1 co.2 true) = some g2) :
    g2.nRows = g.nRows ∧ g2.nCols = g.nCols ∧
    (∀ c, floorB g c = true → floorB g2 c = true) ∧
    floorB g2 cs = true ∧ floorB g2 co = true ∧
    ReachableFloor g2 cs co ∧
    (∀ c, floorB g2 c = true → floorB g c = true ∨ ReachableFloor g2 c cs) := by
  obtain ⟨hh1, hl1, hchain1, hbox1⟩ :=
    bresenhamPoints_axis_spec cs.1 cs.2 corner.1 corner.2 haxis1
  obtain ⟨hh2, hl2, hchain2, hbox2⟩ :=
    bresenhamPoints_axis_spec corner.1 corner.2 co.1 co.2 haxis2
  obtain ⟨d1r, d1c, m1, f1, rev1⟩ := carveLine_spec h1
  obtain ⟨d2r, d2c, m2, f2, rev2⟩ := carveLine_spec h2
  have hpos1 : ∀ p ∈ bresenhamPoints (cs.1 : Int) cs.2 corner.1 corner.2 true,
      0 ≤ p.1 ∧ 0 ≤ p.2 := by
    intro p hp
    obtain ⟨b1, b2, b3, b4⟩ := hbox1 p hp
    constructor
    · calc (0 : Int) ≤ min (cs.1 : Int) (corner.1 : Int) := le_min (by positivity) (by positivity)
        _ ≤ p.1 := b1
    · calc (0 : Int) ≤ min (cs.2 : Int) (corner.2 : Int) := le_min (by positivity) (by positivity)
        _ ≤ p.2 := b3
  have hpos2 : ∀ p ∈ bresenhamPoints (corner.1 : Int) corner.2 co.1 co.2 true,
      0 ≤ p.1 ∧ 0 ≤ p.2 := by
    intro p hp
    obtain ⟨b1, b2, b3, b4⟩ := hbox2 p hp
    constructor
    · calc (0 : Int) ≤ min (corner.1 : Int) (co.1 : Int) := le_min (by positivity) (by positivity)
        _ ≤ p.1 := b1
    · calc (0 : Int) ≤ min (corner.2 : Int) (co.2 : Int) := le_min (by positivity) (by positivity)
        _ ≤ p.2 := b3
  have hfl1 : ∀ c ∈ (bresenhamPoints (cs.1 : Int) cs.2 corner.1 corner.2 true).map toCell,
      floorB g2 c = true := by
    rintro c hc
    obtain ⟨p, hp, rfl⟩ := List.mem_map.1 hc
    exact m2 _ (f1 p hp)
  have hfl2 : ∀ c ∈ (bresenhamPoints (corner.1 : Int) corner.2 co.1 co.2 true).map toCell,
      floorB g2 c = true := by
    rintro c hc
    obtain ⟨p, hp, rfl⟩ := List.mem_map.1 hc
    exact f2 p hp
  have hr1 := reach_of_chain g2 _ (chain_toCell hchain1 hpos1) hfl1
  have hr2 := reach_of_chain g2 _ (chain_toCell hchain2 hpos2) hfl2
  have htc : ∀ a b : Nat, toCell ((a : Int), (b : Int)) = (a, b) := by
    intro a b
    unfold toCell
    simp
  have hcs_mem : cs ∈ (bresenhamPoints (cs.1 : Int) cs.2 corner.1 corner.2 true).map toCell := by
    refine List.mem_map.2 ⟨((cs.1 : Int), (cs.2 : Int)),
      List.mem_of_mem_head? (by rw [hh1]; rfl), ?_⟩
    rw [htc]
  have hcorner_mem1 : corner ∈
      (bresenhamPoints (cs.1 : Int) cs.2 corner.1 corner.2 true).map toCell := by
    refine List.mem_map.2 ⟨((corner.1 : Int), (corner.2 : Int)),
      List.mem_of_mem_getLast? (by rw [hl1]; rfl), ?_⟩
    rw [htc]
  have hcorner_mem2 : corner ∈
      (bresenhamPoints (corner.1 : Int) corner.2 co.1 co.2 true).map toCell := by
    refine List.mem_map.2 ⟨((corner.1 : Int), (corner.2 : Int)),
      List.mem_of_mem_head? (by rw [hh2]; rfl), ?_⟩
    rw [htc]
  have hco_mem : co ∈
      (bresenhamPoints (corner.1 : Int) corner.2 co.1 co.2 true).map toCell := by
    refine List.mem_map.2 ⟨((co.1 : Int), (co.2 : Int)),
      List.mem_of_mem_getLast? (by rw [hl2]; rfl), ?_⟩
    rw [htc]
  have hreach_cs_co : ReachableFloor g2 cs co :=
    reach_trans (hr1 cs hcs_mem corner hcorner_mem1) (hr2 corner hcorner_mem2 co hco_mem)
  refine ⟨d2r.trans d1r, d2c.trans d1c, fun c hc => m2 c (m1 c hc),
    hfl1 cs hcs_mem, hfl2 co hco_mem, hreach_cs_co, ?_⟩
  intro c hc
  rcases rev2 c hc with hc1 | ⟨p, hp, rfl⟩
  · rcases rev1 c hc1 with hcg | ⟨p, hp, rfl⟩
    · exact Or.inl hcg
    · exact Or.inr (hr1 (toCell p) (List.mem_map.2 ⟨p, hp, rfl⟩) cs hcs_mem)
  · refine Or.inr (reach_trans
      (hr2 (toCell p) (List.mem_map.2 ⟨p, hp, rfl⟩) corner hcorner_mem2) ?_)
    exact hr1 corner hcorner_mem1 cs hcs_mem

/-- Spec of `Room::create_tunnel`: floors only grow, both centers end up
Floor and mutually reachable, and every newly carved cell reaches the first
room's center. -/
theorem create_tunnel_spec {self other : Room} {g : Grid} {rng : RNG} {g2 : Grid}
    {rng2 : RNG} (h : Room.create_tunnel self g other rng = some (g2, rng2)) :
    g2.nRows = g.nRows ∧ g2.nCols = g.nCols ∧
    (∀ c, floorB g c = true → floorB g2 c = true) ∧
    floorB g2 self.center = true ∧ floorB g2 other.center = true ∧
    ReachableFloor g2 self.center other.center ∧
    (∀ c, floorB g2 c = true → floorB g c = true ∨ ReachableFloor g2 c self.center) := by
  unfold Room.create_tunnel at h
  dsimp only at h
  by_cases hor : (rng.genBool).1 = true
  · rw [if_pos hor, if_pos hor] at h
    cases hc1 : carveLine g (bresenhamPoints (self.center.1 : Int) (self.center.2 : Int)
        (other.center.1 : Int) (self.center.2 : Int) true) with
    | none => rw [hc1] at h; cases h
    | some g1 =>
      rw [hc1] at h
      simp only [Option.some_bind] at h
      cases hc2 : carveLine g1 (bresenhamPoints (other.center.1 : Int) (self.center.2 : Int)
          (other.center.1 : Int) (other.center.2 : Int) true) with
      | none => rw [hc2] at h; cases h
      | some g2' =>
        rw [hc2] at h
        simp only [Option.some_bind, Option.some.injEq, Prod.mk.injEq] at h
        obtain ⟨rfl, rfl⟩ := h
        exact tunnel_legs_spec self.center other.center (other.center.1, self.center.2)
          (Or.inr rfl) (Or.inl rfl) hc1 hc2
  · rw [if_neg hor, if_neg hor] at h
    cases hc1 : carveLine g (bresenhamPoints (self.center.1 : Int) (self.center.2 : Int)
        (self.center.1 : Int) (other.center.2 : Int) true) with
    | none => rw [hc1] at h; cases h
    | some g1 =>
      rw [hc1] at h
      simp only [Option.some_bind] at h
      cases hc2 : carveLine g1 (bresenhamPoints (self.center.1 : Int) (other.center.2 : Int)
          (other.center.1 : Int) (other.center.2 : Int) true) with
      | none => rw [hc2] at h; cases h
      | some g2' =>
        rw [hc2] at h
        simp only [Option.some_bind, Option.some.injEq, Prod.mk.injEq] at h
        obtain ⟨rfl, rfl⟩ := h
        exact tunnel_legs_spec self.center other.center (self.center.1, other.center.2)
          (Or.inl rfl) (Or.inr rfl) hc1 hc2

/-- A cell 4-adjacent to an in-bounds Floor cell has a Floor neighbor in the
sense of the `remove_walls` guards. -/
theorem floorNbr_of_adj {g0 : Grid} {width height : Nat}
    (hw : g0.nCols = width) (hh : g0.nRows = height) {a b : Nat × Nat}
    (hadj : adj4 a b) (hfb : floorB g0 b = true) : floorNbr g0 width height a.1 a.2 := by
  obtain ⟨hb2, hb1⟩ := floorB_bounds hfb
  have hb1' : b.1 < width := hw ▸ hb1
  have hb2' : b.2 < height := hh ▸ hb2
  obtain ⟨a1, a2⟩ := a
  obtain ⟨b1, b2⟩ := b
  unfold adj4 at hadj
  unfold floorNbr
  dsimp only at hadj hb1' hb2' ⊢
  rcases hadj with ⟨h1, h2 | h2⟩ | ⟨h1, h2 | h2⟩
  · refine Or.inl ⟨by omega, ?_⟩
    have he : ((a1, a2 - 1) : Nat × Nat) = (b1, b2) := by
      simp only [Prod.mk.injEq]
      omega
    rw [he]
    exact hfb
  · refine Or.inr (Or.inl ⟨by omega, ?_⟩)
    have he : ((a1, a2 + 1) : Nat × Nat) = (b1, b2) := by
      simp only [Prod.mk.injEq]
      omega
    rw [he]
    exact hfb
  · refine Or.inr (Or.inr (Or.inl ⟨by omega, ?_⟩))
    have he : ((a1 - 1, a2) : Nat × Nat) = (b1, b2) := by
      simp only [Prod.mk.injEq]
      omega
    rw [he]
    exact hfb
  · refine Or.inr (Or.inr (Or.inr ⟨by omega, ?_⟩))
    have he : ((a1 + 1, a2) : Nat × Nat) = (b1, b2) := by
      simp only [Prod.mk.injEq]
      omega
    rw [he]
    exact hfb

theorem remove_walls_rwinv {g0 g' : Grid} {width height : Nat}
    (hw : g0.nCols = width) (hh : g0.nRows = height)
    (hrw : remove_walls width height g0 = some g') :
    RWInv g0 width height (procRW width 0) g' := by
  obtain ⟨g2, hg2, inv2⟩ := removeWalls_outer hw hh width (le_refl width) g0 RWInv_init
  unfold remove_walls at hrw
  rw [hg2] at hrw
  cases hrw
  exact inv2

/-- A step between two 4-adjacent Floor cells survives the wall-pruning pass:
each endpoint has the other as an initially-Floor neighbor, so neither is
demoted. -/
theorem pruned_keeps_step {g0 g' : Grid} {width height : Nat}
    (hw : g0.nCols = width) (hh : g0.nRows = height)
    (rwinv : RWInv g0 width height (procRW width 0) g')
    {a b : Nat × Nat} (h : floorStep g0 a b) : floorStep g' a b := by
  obtain ⟨hfa, hfb, hadj⟩ := h
  have keep : ∀ c d : Nat × Nat, floorB g0 c = true → floorB g0 d = true → adj4 c d →
      floorB g' c = true := by
    intro c d hc hd hcd
    obtain ⟨hc2, hc1⟩ := floorB_bounds hc
    have hc1' : c.1 < width := hw ▸ hc1
    have hc2' : c.2 < height := hh ▸ hc2
    exact (floorB_iff_cells (rwinv.cols_eq.trans hw) (rwinv.rows_eq.trans hh) hc1' hc2').2
      ((rwinv.floor_iff c.1 c.2 hc1' hc2').2
        ⟨(floorB_iff_cells hw hh hc1' hc2').1 hc,
         fun _ => floorNbr_of_adj hw hh hcd hd⟩)
  exact ⟨keep a b hfa hfb hadj, keep b a hfb hfa (adj4_symm hadj), hadj⟩

/-- With both sides at least 2, a room's center lies in its open interior. -/
theorem room_center_in_interior {x y w h : Nat} (hw : 2 ≤ w) (hh : 2 ≤ h) :
    (Room.new x y w h).x1 + 1 ≤ (Room.new x y w h).center.1 ∧
      (Room.new x y w h).center.1 < (Room.new x y w h).x2 ∧
      (Room.new x y w h).y1 + 1 ≤ (Room.new x y w h).center.2 ∧
      (Room.new x y w h).center.2 < (Room.new x y w h).y2 := by
  show x + 1 ≤ (x + (x + w)) / 2 ∧ (x + (x + w)) / 2 < x + w ∧
    y + 1 ≤ (y + (y + h)) / 2 ∧ (y + (y + h)) / 2 < y + h
  omega

/-- Invariant of the room-placement loop: the grid keeps the passed
dimensions, every Floor cell is reachable from the player position, the
most recently placed room's center is Floor and reachable (or is itself the
player position, before any tunnel was carved), and with no rooms there are
no Floor cells. -/
structure GenInv (width height : Nat) (s : GenState) : Prop where
  rows_eq : s.grid.nRows = height
  cols_eq : s.grid.nCols = width
  conn : ∀ c, floorB s.grid c = true → ReachableFloor s.grid s.player_position c
  anchor : ∀ last, s.rooms.getLast? = some last →
    (floorB s.grid last.center = true ∧
      ReachableFloor s.grid s.player_position last.center) ∨
    s.player_position = last.center
  no_rooms : s.rooms = [] → ∀ c, floorB s.grid c = false

theorem genInv_init (width height : Nat) (rng : RNG) :
    GenInv width height
      { grid := Grid.new width height TileType.Wall, rooms := [],
        player_position := (0, 0), rng := rng } := by
  have hnf : ∀ c, floorB (Grid.new width height TileType.Wall) c = false := by
    intro c
    by_cases hb : c.2 < height ∧ c.1 < width
    · rw [floorB_eq hb.1 hb.2]
      rfl
    · rcases Bool.eq_false_or_eq_true (floorB (Grid.new width height TileType.Wall) c) with
        hB | hB
      · obtain ⟨h2, h1⟩ := floorB_bounds hB
        exact absurd ⟨h2, h1⟩ hb
      · exact hB
  refine ⟨rfl, rfl, ?_, ?_, fun _ => hnf⟩
  · intro c hc
    rw [hnf c] at hc
    cases hc
  · intro last hlast
    simp at hlast

/-- One iteration of the room loop preserves the connectivity invariant. -/
theorem genStep_inv {width height room_min_size room_max_size : Nat} {s s' : GenState}
    (inv : GenInv width height s)
    (h : genStep width height room_min_size room_max_size s = some s') :
    GenInv width height s' := by
  unfold genStep at h
  simp only [Option.bind_eq_some] at h
  obtain ⟨p1, hp1, p2, hp2, u1, hu1, u2, hu2, p3, hp3, v1, hv1, v2, hv2, p4, hp4, h⟩ := h
  split at h
  · cases h
    exact ⟨inv.rows_eq, inv.cols_eq, inv.conn, inv.anchor, inv.no_rooms⟩
  · simp only [Option.bind_eq_some] at h
    obtain ⟨grid1, hfill, h⟩ := h
    obtain ⟨hfr, hfc, hfm, hfT, hfrev⟩ := fill_grid_spec hfill
    split at h
    · rename_i hlen
      cases h
      have hnil : s.rooms = [] := List.length_eq_zero.mp hlen
      refine ⟨hfr.trans inv.rows_eq, hfc.trans inv.cols_eq, ?_, ?_, ?_⟩
      · intro c hc
        rcases hfrev c hc with hcs | ⟨h1, h2, h3, h4⟩
        · rw [inv.no_rooms hnil c] at hcs
          cases hcs
        · have h1' : p3.1 + 1 ≤ c.1 := h1
          have h2' : c.1 < p3.1 + p1.1 := h2
          have h3' : p4.1 + 1 ≤ c.2 := h3
          have h4' : c.2 < p4.1 + p2.1 := h4
          have hw2 : 2 ≤ p1.1 := by omega
          have hh2 : 2 ≤ p2.1 := by omega
          have hctr := @room_center_in_interior p3.1 p4.1 p1.1 p2.1 hw2 hh2
          exact reach_rect grid1 (p3.1 + 1) (p3.1 + p1.1) (p4.1 + 1) (p4.1 + p2.1)
            (fun a b ha hb hc' hd => hfT (a, b) ha hb hc' hd)
            ⟨hctr.1, hctr.2.1, hctr.2.2.1, hctr.2.2.2⟩ ⟨h1, h2, h3, h4⟩
      · intro last hlast
        rw [List.getLast?_concat] at hlast
        cases hlast
        exact Or.inr rfl
      · intro habs
        exact absurd habs (by simp)
    · simp only [Option.bind_eq_some] at h
      obtain ⟨gr, htun, h⟩ := h
      obtain ⟨g2, rng2⟩ := gr
      cases hlast : s.rooms.getLast? with
      | none =>
        rw [hlast] at htun
        cases htun
      | some last =>
        rw [hlast] at htun
        have htun' : Room.create_tunnel (Room.new p3.1 p4.1 p1.1 p2.1) grid1 last p4.2
            = some (g2, rng2) := htun
        obtain ⟨htr, htc, htm, htcs, htco, htreach, htrev⟩ := create_tunnel_spec htun'
        have HPL : ReachableFloor g2 s.player_position last.center := by
          rcases inv.anchor last hlast with ⟨hlf, hlr⟩ | hpe
          · exact reach_mono (fun c hc => htm c (hfm c hc)) hlr
          · rw [hpe]
            exact Relation.ReflTransGen.refl
        have HPR : ReachableFloor g2 s.player_position (Room.new p3.1 p4.1 p1.1 p2.1).center :=
          reach_trans HPL (reach_symm htreach)
        cases h
        refine ⟨htr.trans (hfr.trans inv.rows_eq), htc.trans (hfc.trans inv.cols_eq),
          ?_, ?_, ?_⟩
        · intro c hc
          rcases htrev c hc with hc1 | hcr
          · rcases hfrev c hc1 with hcs | ⟨h1, h2, h3, h4⟩
            · exact reach_mono (fun d hd => htm d (hfm d hd)) (inv.conn c hcs)
            · have h1' : p3.1 + 1 ≤ c.1 := h1
              have h2' : c.1 < p3.1 + p1.1 := h2
              have h3' : p4.1 + 1 ≤ c.2 := h3
              have h4' : c.2 < p4.1 + p2.1 := h4
              have hw2 : 2 ≤ p1.1 := by omega
              have hh2 : 2 ≤ p2.1 := by omega
              have hctr := @room_center_in_interior p3.1 p4.1 p1.1 p2.1 hw2 hh2
              have hcr2 : ReachableFloor g2 c (Room.new p3.1 p4.1 p1.1 p2.1).center :=
                reach_rect g2 (p3.1 + 1) (p3.1 + p1.1) (p4.1 + 1) (p4.1 + p2.1)
                  (fun a b ha hb hc' hd => htm (a, b) (hfT (a, b) ha hb hc' hd))
                  ⟨h1, h2, h3, h4⟩ ⟨hctr.1, hctr.2.1, hctr.2.2.1, hctr.2.2.2⟩
              exact reach_trans HPR (reach_symm hcr2)
          · exact reach_trans HPR (reach_symm hcr)
        · intro last' hl'
          rw [List.getLast?_concat] at hl'
          cases hl'
          exact Or.inl ⟨htcs, HPR⟩
        · intro habs
          exact absurd habs (by simp)

/-- The whole room loop preserves the connectivity invariant. -/
theorem roomLoop_inv {width height room_min_size room_max_size : Nat} :
    ∀ (n : Nat) {s s' : GenState}, GenInv width height s →
      roomLoop width height room_min_size room_max_size n s = some s' →
      GenInv width height s' := by
  intro n
  induction n with
  | zero =>
    intro s s' inv h
    cases h
    exact inv
  | succ n ih =>
    intro s s' inv h
    unfold roomLoop at h
    rw [Option.bind_eq_some] at h
    obtain ⟨s1, hs1, h⟩ := h
    exact ih (genStep_inv inv hs1) h

/-- C7: for every map returned by `MapGeneratorStart::generate` (any
parameters for which it returns a map and any random sequence), every Floor
cell of the final grid is reachable from the player spawn cell via a path of
4-directionally adjacent Floor cells. -/
theorem mapGeneratorStart_connected (p : MapGeneratorStart) (rng : RNG) (m : GameMap)
    (h : MapGeneratorStart.generate p rng = some m) :
    ∀ c, floorB m.grid c = true → ReachableFloor m.grid m.player_position c := by
  unfold MapGeneratorStart.generate at h
  simp only [Option.bind_eq_some] at h
  obtain ⟨st, hst, ms, hms, its, hits, grid2, hrw, h⟩ := h
  cases h
  have inv := roomLoop_inv p.max_rooms (genInv_init p.width p.height rng) hst
  have hw : st.grid.nCols = p.width := inv.cols_eq
  have hh : st.grid.nRows = p.height := inv.rows_eq
  have rwinv := remove_walls_rwinv hw hh hrw
  intro c hc
  show ReachableFloor grid2 st.player_position c
  have hc' : floorB grid2 c = true := hc
  obtain ⟨hc2, hc1⟩ := floorB_bounds hc'
  have hc1' : c.1 < p.width := by
    have e1 := rwinv.cols_eq
    omega
  have hc2' : c.2 < p.height := by
    have e1 := rwinv.rows_eq
    omega
  have hfg0 : floorB st.grid c = true :=
    (floorB_iff_cells hw hh hc1' hc2').2
      (((rwinv.floor_iff c.1 c.2 hc1' hc2').1
        ((floorB_iff_cells (rwinv.cols_eq.trans hw) (rwinv.rows_eq.trans hh)
          hc1' hc2').1 hc')).1)
  exact Relation.ReflTransGen.mono (fun a b hab => pruned_keeps_step hw hh rwinv hab)
    (inv.conn c hfg0)

def c7Params : MapGeneratorStart := ⟨5, 5, 1, 3, 3, 0, 0⟩

def c7Rng : RNG := ⟨fun _ => 0, 0⟩

def c7Junk : GameMap :=
  { grid := Grid.new 0 0 TileType.Wall, tile_mapping := TileMapping.new,
    player_position := (0, 0), monsters := [], items := [], center := (0, 0),
    width := 0, height := 0 }

/-- The map generated by the all-zeros random sequence on a 5×5 request:
one 3×3 room at the origin, spawn `(1, 1)`, floors `{1, 2} × {1, 2}`. -/
def c7Map : GameMap := (MapGeneratorStart.generate c7Params c7Rng).getD c7Junk

theorem mapGeneratorStart_connected_witness :
    floorB c7Map.grid (2, 2) = true ∧
      ReachableFloor c7Map.grid c7Map.player_position (2, 2) :=
  ⟨by rfl, mapGeneratorStart_connected c7Params c7Rng c7Map (by rfl) (2, 2) (by rfl)⟩
